import Mathlib

/-!
Shallow embedding of the `raytracer` repository (Rust) over exact rationals.

Numeric values (Rust `f64`/`f32`) are modelled as `ℚ`; square roots and
logarithms, which are not exactly representable, are passed as explicit
parameters constrained by hypotheses in the theorems.  Where IEEE-754
infinities are essential to the algorithm (the AABB slab test divides by a
possibly-zero direction component), an extended-value type `EQx` with IEEE
comparison semantics is used.  Each definition mirrors one function of the
source; the source file and function are named in its doc comment.
-/

namespace RT

/-- `Vec3` from src/vec3.rs: three components (`Point3` and `Color` are
aliases in the source). -/
structure Vec3 where
  x : ℚ
  y : ℚ
  z : ℚ
deriving DecidableEq, Repr

namespace Vec3

/-- `impl Add for Vec3` (src/vec3.rs). -/
def add (a b : Vec3) : Vec3 := ⟨a.x + b.x, a.y + b.y, a.z + b.z⟩

/-- `impl Sub for Vec3` (src/vec3.rs). -/
def sub (a b : Vec3) : Vec3 := ⟨a.x - b.x, a.y - b.y, a.z - b.z⟩

/-- `impl Neg for Vec3` (src/vec3.rs). -/
def neg (a : Vec3) : Vec3 := ⟨-a.x, -a.y, -a.z⟩

/-- `impl Mul<Vec3> for f64` (src/vec3.rs): scalar times vector. -/
def smul (k : ℚ) (a : Vec3) : Vec3 := ⟨k * a.x, k * a.y, k * a.z⟩

/-- `impl Mul<Vec3> for Vec3` (src/vec3.rs): componentwise product. -/
def cmul (a b : Vec3) : Vec3 := ⟨a.x * b.x, a.y * b.y, a.z * b.z⟩

/-- `Vec3::dot` (src/vec3.rs). -/
def dot (a b : Vec3) : ℚ := a.x * b.x + a.y * b.y + a.z * b.z

/-- `Vec3::cross` (src/vec3.rs). -/
def cross (a b : Vec3) : Vec3 :=
  ⟨a.y * b.z - a.z * b.y, a.z * b.x - a.x * b.z, a.x * b.y - a.y * b.x⟩

/-- `Vec3::length_sq` (src/vec3.rs). -/
def lengthSq (a : Vec3) : ℚ := a.x ^ 2 + a.y ^ 2 + a.z ^ 2

/-- `Vec3::reflect` (src/vec3.rs line 296): `v - 2*(v·n)*n`. -/
def reflect (v n : Vec3) : Vec3 := sub v (smul (2 * dot v n) n)

/-- `Vec3::default()`: the zero vector. -/
def zero : Vec3 := ⟨0, 0, 0⟩

/-- Componentwise non-negativity of a color/vector. -/
def Nonneg (a : Vec3) : Prop := 0 ≤ a.x ∧ 0 ≤ a.y ∧ 0 ≤ a.z

instance : Add Vec3 := ⟨add⟩
instance : Sub Vec3 := ⟨sub⟩
instance : Neg Vec3 := ⟨neg⟩

end Vec3

/-- `Interval` from src/interval.rs (fields `start`/`end`; `end` is a Lean
keyword so it is called `stop` here). -/
structure Interval where
  start : ℚ
  stop : ℚ
deriving DecidableEq, Repr

namespace Interval

/-- `Interval::size` (src/interval.rs). -/
def size (i : Interval) : ℚ := i.stop - i.start

/-- `Interval::contains` (src/interval.rs line 39): closed membership. -/
def contains (i : Interval) (value : ℚ) : Prop := i.start ≤ value ∧ value ≤ i.stop

instance (i : Interval) (v : ℚ) : Decidable (i.contains v) := by
  unfold contains; infer_instance

/-- `Interval::surrounds` (src/interval.rs line 44): strict membership. -/
def surrounds (i : Interval) (value : ℚ) : Prop := i.start < value ∧ value < i.stop

instance (i : Interval) (v : ℚ) : Decidable (i.surrounds v) := by
  unfold surrounds; infer_instance

/-- `Interval::expand` (src/interval.rs line 49): pad both ends by `delta/2`. -/
def expandI (i : Interval) (delta : ℚ) : Interval :=
  ⟨i.start - delta / 2, i.stop + delta / 2⟩

/-- `Interval::enclose` (src/interval.rs line 16). -/
def enclose (a b : Interval) : Interval := ⟨min a.start b.start, max a.stop b.stop⟩

/-- `Interval::grow` (src/interval.rs line 23): same result as `enclose`,
written as the in-place update of the first argument. -/
def grow (a b : Interval) : Interval := ⟨min a.start b.start, max a.stop b.stop⟩

end Interval

/-- `Ray` from src/ray.rs. -/
structure Ray where
  origin : Vec3
  direction : Vec3
  time : ℚ
deriving DecidableEq, Repr

/-- `Ray::at` (src/ray.rs line 35): `origin + t * direction`. -/
def Ray.pointAt (r : Ray) (t : ℚ) : Vec3 := r.origin + Vec3.smul t r.direction

/-! ## Sphere (src/sphere.rs)

`Sphere::hit` computes the discriminant of `|O + tD - C|² = r²` and takes
`sqrt` of it.  The square root is irrational in general, so the embedded
function receives the value `sqrtD` of `discriminant.sqrt()` as an explicit
argument; theorems constrain it by `sqrtD ≥ 0 ∧ sqrtD * sqrtD = discriminant`.
The hit record is reduced to its `time` field (`root` in the source), the
only value the claims compare. -/

/-- The fields of `Sphere` (src/sphere.rs) that `hit` reads. -/
structure Sphere where
  center1 : Vec3
  radius : ℚ
  isMoving : Bool
  centerVec : Vec3
deriving DecidableEq, Repr

namespace Sphere

/-- `Sphere::sphere_center` (src/sphere.rs line 94) combined with the
`is_moving` selection at the top of `hit`. -/
def centerAt (s : Sphere) (time : ℚ) : Vec3 :=
  if s.isMoving then s.center1 + Vec3.smul time s.centerVec else s.center1

/-- `a` in `Sphere::hit`: `ray.direction().length_sq()`. -/
def aOf (ray : Ray) : ℚ := ray.direction.lengthSq

/-- `half_b` in `Sphere::hit`: `ray.direction().dot(oc)` with `oc = center - origin`. -/
def halfB (s : Sphere) (ray : Ray) : ℚ :=
  ray.direction.dot ((s.centerAt ray.time) - ray.origin)

/-- `c` in `Sphere::hit`: `oc.length_sq() - radius * radius`. -/
def cOf (s : Sphere) (ray : Ray) : ℚ :=
  ((s.centerAt ray.time) - ray.origin).lengthSq - s.radius * s.radius

/-- `discriminant` in `Sphere::hit`: `half_b * half_b - a * c`. -/
def disc (s : Sphere) (ray : Ray) : ℚ := halfB s ray * halfB s ray - aOf ray * cOf s ray

/-- `Sphere::hit` (src/sphere.rs lines 22-56), returning the accepted root
(`root` in the source).  `sqrtD` stands for `discriminant.sqrt()`. -/
def hit (s : Sphere) (ray : Ray) (ti : Interval) (sqrtD : ℚ) : Option ℚ :=
  if disc s ray < 0 then none
  else
    let invA := 1 / aOf ray
    let root1 := (halfB s ray - sqrtD) * invA
    if ti.surrounds root1 then some root1
    else
      let root2 := (halfB s ray + sqrtD) * invA
      if ti.surrounds root2 then some root2 else none

end Sphere

/-! ## Quad (src/quad.rs)

`Quad::new` derives `normal = u×v |> unit`, `d = normal·q`, `w = n/|n|²`.
The unit normal involves a square root, so `Quad::hit` is embedded over the
struct fields themselves (`q,u,v,w,normal,d`), exactly the data `hit` reads. -/

/-- The fields of `Quad` (src/quad.rs) read by `hit`. -/
structure Quad where
  q : Vec3
  u : Vec3
  v : Vec3
  w : Vec3
  normal : Vec3
  d : ℚ
deriving DecidableEq, Repr

/-- `Quad::hit` (src/quad.rs lines 25-51), returning the accepted `time`. -/
def Quad.hit (qd : Quad) (ray : Ray) (ti : Interval) : Option ℚ :=
  let denominator := qd.normal.dot ray.direction
  if |denominator| < 1 / 1000000 then none
  else
    let time := (qd.d - qd.normal.dot ray.origin) / denominator
    if ¬ ti.contains time then none
    else
      let hitPoint := ray.pointAt time
      let hitPointVector := hitPoint - qd.q
      let alpha := qd.w.dot (hitPointVector.cross qd.v)
      let beta := qd.w.dot (qd.u.cross hitPointVector)
      let unitInterval : Interval := ⟨0, 1⟩
      if ¬ unitInterval.contains alpha ∨ ¬ unitInterval.contains beta then none
      else some time

/-! ## Bounding boxes

The repository has two axis-aligned bounding box types: `Aabb` in
src/aabb.rs, whose `new`/`new_from_points` pad every axis to a minimum size,
and `AxisAlignedBoundingBox` in src/bvh.rs, whose constructors never pad.
`Sphere`, `Quad` and `BVHNode` use the latter. -/

/-- `Aabb` from src/aabb.rs. -/
structure Aabb where
  x : Interval
  y : Interval
  z : Interval
deriving DecidableEq, Repr

namespace Aabb

/-- `Aabb::pad_to_minimums` (src/aabb.rs lines 87-98): expand any axis of
size below `delta = 0.0001`. -/
def padToMinimums (b : Aabb) : Aabb :=
  let delta : ℚ := 1 / 10000
  { x := if b.x.size < delta then b.x.expandI delta else b.x
    y := if b.y.size < delta then b.y.expandI delta else b.y
    z := if b.z.size < delta then b.z.expandI delta else b.z }

/-- `Aabb::new` (src/aabb.rs line 44). -/
def new (x y z : Interval) : Aabb := padToMinimums ⟨x, y, z⟩

/-- `Aabb::new_from_points` (src/aabb.rs line 50). -/
def newFromPoints (a b : Vec3) : Aabb :=
  padToMinimums
    ⟨⟨min a.x b.x, max a.x b.x⟩, ⟨min a.y b.y, max a.y b.y⟩, ⟨min a.z b.z, max a.z b.z⟩⟩

/-- `Aabb::enclose` (src/aabb.rs line 59): no padding. -/
def enclose (b0 b1 : Aabb) : Aabb :=
  ⟨Interval.enclose b0.x b1.x, Interval.enclose b0.y b1.y, Interval.enclose b0.z b1.z⟩

/-- `Aabb::grow` (src/aabb.rs line 67): no padding. -/
def grow (b0 b1 : Aabb) : Aabb :=
  ⟨Interval.grow b0.x b1.x, Interval.grow b0.y b1.y, Interval.grow b0.z b1.z⟩

/-- `Aabb::default()` (derived): all three intervals are `Interval::default()
= {start: 0.0, end: 0.0}`. -/
def defaultA : Aabb := ⟨⟨0, 0⟩, ⟨0, 0⟩, ⟨0, 0⟩⟩

end Aabb

/-- `AxisAlignedBoundingBox` from src/bvh.rs (no padding anywhere). -/
structure BBox where
  x : Interval
  y : Interval
  z : Interval
deriving DecidableEq, Repr

namespace BBox

/-- `AxisAlignedBoundingBox::new_from_points` (src/bvh.rs lines 36-53). -/
def newFromPoints (a b : Vec3) : BBox :=
  { x := if a.x ≤ b.x then ⟨a.x, b.x⟩ else ⟨b.x, a.x⟩
    y := if a.y ≤ b.y then ⟨a.y, b.y⟩ else ⟨b.y, a.y⟩
    z := if a.z ≤ b.z then ⟨a.z, b.z⟩ else ⟨b.z, a.z⟩ }

/-- `AxisAlignedBoundingBox::enclose` (src/bvh.rs line 55). -/
def enclose (b0 b1 : BBox) : BBox :=
  ⟨Interval.enclose b0.x b1.x, Interval.enclose b0.y b1.y, Interval.enclose b0.z b1.z⟩

end BBox

/-- The bounding box computed by `Quad::new` (src/quad.rs lines 60-62):
`enclose(new_from_points(q, q+u+v), new_from_points(q+u, q+v))` over the
unpadded `AxisAlignedBoundingBox`. -/
def quadBBox (q u v : Vec3) : BBox :=
  BBox.enclose (BBox.newFromPoints q (q + u + v)) (BBox.newFromPoints (q + u) (q + v))

/-! ## Checker texture (src/texture.rs lines 51-72)

`color_value` computes `(inv_scale * coord).floor() as i32` per axis.  The
Rust float-to-int cast saturates at the `i32` bounds, which the embedding
models with `i32sat`.  The three `i32` values are added (wrapping addition
preserves parity) and the parity of the sum picks the child texture. -/

/-- Rust `f.floor() as i32`: floor, then the saturating float-to-int cast. -/
def i32sat (q : ℚ) : ℤ := max (-(2 ^ 31)) (min (2 ^ 31 - 1) ⌊q⌋)

/-- `Checker::color_value` (src/texture.rs lines 52-61), with the two child
textures as abstract `color_value` functions.  `invScale` is the field
`inv_scale = 1.0 / scale` set by `Checker::new`. -/
def checkerColorValue (odd even : ℚ → ℚ → Vec3 → Vec3) (invScale : ℚ)
    (u v : ℚ) (hitPoint : Vec3) : Vec3 :=
  let xInt := i32sat (invScale * hitPoint.x)
  let yInt := i32sat (invScale * hitPoint.y)
  let zInt := i32sat (invScale * hitPoint.z)
  if (xInt + yInt + zInt) % 2 = 0 then even u v hitPoint else odd u v hitPoint

/-! ## Image texture (src/texture.rs lines 82-115)

`ImageTex::color_value` truncates `u*width` and `(1-v)*height` to `usize`
(the Rust float-to-usize cast truncates toward zero and saturates below at
0) and calls `get_pixel`, which slices `data[index..index+3]` with no bounds
adjustment; an out-of-range slice panics, modelled by `none`. -/

/-- Rust `f as usize` for non-huge values: truncation, saturating at 0. -/
def usizeCast (q : ℚ) : ℕ := (max 0 ⌊q⌋).toNat

/-- The fields of `ImageTex` (src/texture.rs): the decoded raster bytes and
dimensions; `bytes_per_pixel` is always 3. -/
structure ImageTex where
  data : List ℕ
  width : ℕ
  height : ℕ
deriving DecidableEq, Repr

/-- `ImageTex::get_pixel` (src/texture.rs lines 106-115).  The slice
`data[index..index+3]` panics when it leaves the buffer; that is `none`. -/
def ImageTex.getPixel (img : ImageTex) (x y : ℕ) : Option Vec3 :=
  let index := x * 3 + y * img.width * 3
  if h : index + 3 ≤ img.data.length then
    some ⟨(img.data.get ⟨index, by omega⟩ : ℚ) / 255,
          (img.data.get ⟨index + 1, by omega⟩ : ℚ) / 255,
          (img.data.get ⟨index + 2, by omega⟩ : ℚ) / 255⟩
  else none

/-- `ImageTex::color_value` (src/texture.rs lines 83-87). -/
def ImageTex.colorValue (img : ImageTex) (u v : ℚ) : Option Vec3 :=
  let i := usizeCast (u * img.width)
  let j := usizeCast ((1 - v) * img.height)
  img.getPixel i j

/-! ## Camera ray color and pixel resolution (src/camera.rs)

`Camera::ray_color` queries the world (a BVH) for a hit, asks the hit's
material for its emitted color and an optional scatter; the recursion is on
`depth`.  The world, materials and sampler randomness are abstracted into a
function from rays to an optional hit outcome: the emitted color and the
optional `(attenuation, scattered ray)` pair, which covers every scene and
every random draw.  The fixed query interval `(0.001, ∞)` is folded into
that function. -/

/-- Outcome of one world query in `Camera::ray_color`: the material's
emitted color at the hit and the optional scatter result. -/
structure HitOutcome where
  emitted : Vec3
  scatterRes : Option (Vec3 × Ray)

/-- `Camera::ray_color` (src/camera.rs lines 126-146). -/
def rayColor (world : Ray → Option HitOutcome) (background : Vec3) :
    ℕ → Ray → Vec3
  | 0, _ => Vec3.zero
  | d + 1, ray =>
    match world ray with
    | some hitRecord =>
      match hitRecord.scatterRes with
      | some (attenuation, scattered) =>
        hitRecord.emitted + Vec3.cmul attenuation (rayColor world background d scattered)
      | none => hitRecord.emitted
    | none => background

/-- One pixel of `Camera::render_image` (src/camera.rs lines 203-209): the
sum of `ray_color` over the per-pixel sample rays, scaled by
`pixel_sample_scale`.  `Sum for Vec3` folds `+` from `Vec3::default()`. -/
def renderPixel (world : Ray → Option HitOutcome) (background : Vec3)
    (depth : ℕ) (sampleRays : List Ray) (pixelSampleScale : ℚ) : Vec3 :=
  Vec3.smul pixelSampleScale
    ((sampleRays.map (rayColor world background depth)).foldl Vec3.add Vec3.zero)

/-! ## Dielectric material (src/material.rs lines 86-125)

`Dielectric::scatter` needs `sin θ = sqrt(1 - cos²θ)` and, in the refraction
branch, another square root; both are irrational in general and are passed
as parameters (`sinTheta`, `refrSqrt`), constrained by hypotheses.  The unit
incoming direction `incoming.direction().unit()` is likewise passed directly
as `unitDir`.  `randDraw` is the `fastrand::f64()` draw. -/

/-- `Dielectric::reflectance` (src/material.rs lines 96-99). -/
def reflectance (refractionIndex cosine : ℚ) : ℚ :=
  let r0 := ((1 - refractionIndex) / (1 + refractionIndex)) ^ 2
  r0 + (1 - r0) * (1 - cosine) ^ 5

/-- `Vec3::refract` (src/vec3.rs lines 301-307), with `refrSqrt` standing for
`(1.0 - r_out_perp.length_sq()).abs().sqrt()`. -/
def refractP (v n : Vec3) (relativeRefractiveIndex refrSqrt : ℚ) : Vec3 :=
  let cosTheta := min ((Vec3.neg v).dot n) 1
  let rOutPerp := Vec3.smul relativeRefractiveIndex (v + Vec3.smul cosTheta n)
  let rOutParallel := Vec3.smul (-refrSqrt) n
  rOutPerp + rOutParallel

/-- `Dielectric::scatter` (src/material.rs lines 102-125): returns the
attenuation and the scattered direction.  `front` and `normal` are the hit
record fields; `sinTheta` stands for `(1.0 - cos_theta.powi(2)).sqrt()`. -/
def dielectricScatter (refractionIndex : ℚ) (front : Bool) (normal unitDir : Vec3)
    (sinTheta randDraw refrSqrt : ℚ) : Vec3 × Vec3 :=
  let ri := if front then 1 / refractionIndex else refractionIndex
  let cosTheta := min ((Vec3.neg unitDir).dot normal) 1
  let direction :=
    if ri * sinTheta > 1 ∨ reflectance refractionIndex cosTheta > randDraw then
      Vec3.reflect unitDir normal
    else
      refractP unitDir normal ri refrSqrt
  (⟨1, 1, 1⟩, direction)

/-! ## IEEE-754 extended values for the slab test

`Aabb::hit` (src/aabb.rs) and `AxisAlignedBoundingBox::hit` (src/bvh.rs)
compute `1.0 / direction[axis]` without guarding against zero: IEEE division
yields `+inf` (the embedded rationals have no negative zero), and
`0 * ±inf = NaN`.  `EQx` models a double as a rational, an infinity or NaN,
with the IEEE rules for the operations and comparisons the slab test uses. -/

inductive EQx where
  | nan : EQx
  | ninf : EQx
  | fin (q : ℚ) : EQx
  | pinf : EQx
deriving DecidableEq, Repr

namespace EQx

/-- IEEE `1.0 / d` for a finite `d` (`+0` gives `+inf`). -/
def inv1 (d : ℚ) : EQx := if d = 0 then pinf else fin (1 / d)

/-- IEEE product of a finite value and an extended value
(`0 * ±inf = NaN`). -/
def mulFin (a : ℚ) (x : EQx) : EQx :=
  match x with
  | nan => nan
  | fin b => fin (a * b)
  | pinf => if 0 < a then pinf else if a < 0 then ninf else nan
  | ninf => if 0 < a then ninf else if a < 0 then pinf else nan

/-- IEEE `<`: any comparison involving NaN is false. -/
def lt : EQx → EQx → Bool
  | nan, _ => false
  | _, nan => false
  | ninf, ninf => false
  | ninf, _ => true
  | fin _, ninf => false
  | fin a, fin b => decide (a < b)
  | fin _, pinf => true
  | pinf, _ => false

/-- IEEE `<=`: any comparison involving NaN is false. -/
def le : EQx → EQx → Bool
  | nan, _ => false
  | _, nan => false
  | ninf, _ => true
  | fin _, ninf => false
  | fin a, fin b => decide (a ≤ b)
  | fin _, pinf => true
  | pinf, pinf => true
  | pinf, _ => false

end EQx

/-- One axis of `Aabb::hit` (src/aabb.rs lines 104-128): compute the two
slab times, swap them if `t0 > t1`, then clip the running time interval. -/
def slabAxisA (axisInterval : Interval) (o d : ℚ) (st : EQx × EQx) : EQx × EQx :=
  let adInv := EQx.inv1 d
  let t0 := EQx.mulFin (axisInterval.start - o) adInv
  let t1 := EQx.mulFin (axisInterval.stop - o) adInv
  let p := if EQx.lt t1 t0 then (t1, t0) else (t0, t1)
  (if EQx.lt st.1 p.1 then p.1 else st.1, if EQx.lt p.2 st.2 then p.2 else st.2)

/-- `Aabb::hit` (src/aabb.rs lines 100-131): the `for axis in 0..3` loop with
its early `return false` when the clipped interval is empty (`end <= start`). -/
def Aabb.hit (b : Aabb) (ray : Ray) (ti : Interval) : Bool :=
  let st0 : EQx × EQx := (EQx.fin ti.start, EQx.fin ti.stop)
  let st1 := slabAxisA b.x ray.origin.x ray.direction.x st0
  if EQx.le st1.2 st1.1 then false
  else
    let st2 := slabAxisA b.y ray.origin.y ray.direction.y st1
    if EQx.le st2.2 st2.1 then false
    else
      let st3 := slabAxisA b.z ray.origin.z ray.direction.z st2
      if EQx.le st3.2 st3.1 then false else true

/-- One axis of `AxisAlignedBoundingBox::hit` (src/bvh.rs lines 87-107):
branch on `t0 < t1` instead of swapping. -/
def slabAxisB (axisInterval : Interval) (o d : ℚ) (st : EQx × EQx) : EQx × EQx :=
  let adInv := EQx.inv1 d
  let t0 := EQx.mulFin (axisInterval.start - o) adInv
  let t1 := EQx.mulFin (axisInterval.stop - o) adInv
  if EQx.lt t0 t1 then
    (if EQx.lt st.1 t0 then t0 else st.1, if EQx.lt t1 st.2 then t1 else st.2)
  else
    (if EQx.lt st.1 t1 then t1 else st.1, if EQx.lt t0 st.2 then t0 else st.2)

/-- `AxisAlignedBoundingBox::hit` (src/bvh.rs lines 83-115). -/
def BBox.hit (b : BBox) (ray : Ray) (ti : Interval) : Bool :=
  let st0 : EQx × EQx := (EQx.fin ti.start, EQx.fin ti.stop)
  let st1 := slabAxisB b.x ray.origin.x ray.direction.x st0
  if EQx.le st1.2 st1.1 then false
  else
    let st2 := slabAxisB b.y ray.origin.y ray.direction.y st1
    if EQx.le st2.2 st2.1 then false
    else
      let st3 := slabAxisB b.z ray.origin.z ray.direction.z st2
      if EQx.le st3.2 st3.1 then false else true

/-! ## BVH traversal versus linear scan (src/bvh.rs, src/entity.rs)

Primitives are abstracted as a hit function `α → Ray → Interval → Option ℚ`
returning the hit record's `time`, the field the claim compares.  A tree as
built by `BVHNode::new` is an inner node holding the enclosing box of its
two children (for a single object, `new` makes both children that object). -/

/-- A BVH: leaves are primitives, inner nodes carry their bounding box. -/
inductive BVHTree (α : Type) where
  | leaf (prim : α) : BVHTree α
  | node (box : BBox) (left right : BVHTree α) : BVHTree α

/-- The primitives at the leaves of a BVH, left to right. -/
def BVHTree.prims {α : Type} : BVHTree α → List α
  | leaf p => [p]
  | node _ l r => l.prims ++ r.prims

/-- `BVHNode::hit` (src/bvh.rs lines 126-139): box test, then query both
children over the same interval and keep the smaller `time` when both hit. -/
def BVHTree.hit {α : Type} (primHit : α → Ray → Interval → Option ℚ)
    (ray : Ray) (ti : Interval) : BVHTree α → Option ℚ
  | leaf p => primHit p ray ti
  | node box l r =>
    if BBox.hit box ray ti then
      match l.hit primHit ray ti, r.hit primHit ray ti with
      | some hl, some hr => some (if hl < hr then hl else hr)
      | some hl, none => some hl
      | none, some hr => some hr
      | none, none => none
    else none

/-- The loop body state of `EntityCluster::hit` (src/entity.rs lines 82-92):
`closest` starts at `time_interval.end`, each hit shrinks it. -/
def scanHitAux {α : Type} (primHit : α → Ray → Interval → Option ℚ)
    (ray : Ray) (start : ℚ) : List α → ℚ → Option ℚ → Option ℚ
  | [], _, result => result
  | p :: ps, closest, result =>
    match primHit p ray ⟨start, closest⟩ with
    | some t => scanHitAux primHit ray start ps t (some t)
    | none => scanHitAux primHit ray start ps closest result

/-- `EntityCluster::hit` (src/entity.rs lines 82-92): brute-force linear scan. -/
def scanHit {α : Type} (primHit : α → Ray → Interval → Option ℚ)
    (ray : Ray) (ti : Interval) (prims : List α) : Option ℚ :=
  scanHitAux primHit ray ti.start prims ti.stop none

/-- The merge in `BVHNode::hit`, as a two-argument operation on hit times. -/
def optMin : Option ℚ → Option ℚ → Option ℚ
  | some a, some b => some (if a < b then a else b)
  | some a, none => some a
  | none, b => b

/-- The least hit time of a list of query results (`none` if all miss). -/
def listBest (l : List (Option ℚ)) : Option ℚ := l.foldr optMin none

/-- A primitive hit function behaves like a geometric intersection on
sub-intervals sharing the left endpoint `s`: any returned time lies in the
closed query interval, shrinking the right endpoint above a returned hit
keeps it, and enlarging the right endpoint preserves a hit.  `Sphere::hit`
and `Quad::hit` have all three properties. -/
def GoodPrim {α : Type} (primHit : α → Ray → Interval → Option ℚ)
    (p : α) (ray : Ray) (s : ℚ) : Prop :=
  (∀ e t, primHit p ray ⟨s, e⟩ = some t → s ≤ t ∧ t ≤ e) ∧
  (∀ e eSm t, eSm ≤ e → primHit p ray ⟨s, e⟩ = some t → t < eSm →
    primHit p ray ⟨s, eSm⟩ = some t) ∧
  (∀ e eSm t, eSm ≤ e → primHit p ray ⟨s, eSm⟩ = some t →
    primHit p ray ⟨s, e⟩ = some t)

/-- The node boxes of a BVH are conservative for a given query: whenever a
node's box test fails, no primitive below that node hits in the interval. -/
def Conservative {α : Type} (primHit : α → Ray → Interval → Option ℚ)
    (ray : Ray) (ti : Interval) : BVHTree α → Prop
  | .leaf _ => True
  | .node box l r =>
    (BBox.hit box ray ti = false →
      ∀ p ∈ BVHTree.prims (.node box l r), primHit p ray ti = none) ∧
    Conservative primHit ray ti l ∧ Conservative primHit ray ti r

/-! ## Constant medium (src/constant_medium.rs lines 31-76)

The boundary is an abstract `Entity` whose `hit` is queried with the
intervals `(-inf, inf)` and `(t1 + 0.0001, inf)`, so it takes an `EQx`
interval.  `hit_distance = neg_inv_density * ln(U)` and
`ray_length = |D|` involve `ln` and `sqrt` and are passed as parameters. -/

/-- `ConstantMedium::hit` (src/constant_medium.rs lines 31-76), returning the
scatter `time`.  `boundaryHit` returns the boundary hit record's `time`. -/
def constantMediumHit (boundaryHit : Ray → EQx × EQx → Option ℚ)
    (hitDistance rayLength : ℚ) (ray : Ray) (ti : Interval) : Option ℚ :=
  match boundaryHit ray (EQx.ninf, EQx.pinf) with
  | none => none
  | some t1a =>
    match boundaryHit ray (EQx.fin (t1a + 1 / 10000), EQx.pinf) with
    | none => none
    | some t2a =>
      let t1 := if t1a < ti.start then ti.start else t1a
      let t2 := if ti.stop < t2a then ti.stop else t2a
      if t1 ≥ t2 then none
      else
        let t1c := if t1 < 0 then 0 else t1
        let distanceInsideBoundary := (t2 - t1c) * rayLength
        if hitDistance > distanceInsideBoundary then none
        else some (t1c + hitDistance / rayLength)

/-- Modelled from the spec of `ConstantMedium::hit` for comparison: entry and
exit times via the same two boundary queries, *both* clamped to the caller's
interval and to `t ≥ 0` before the `t1 >= t2` test. -/
def constantMediumHitSpec (boundaryHit : Ray → EQx × EQx → Option ℚ)
    (hitDistance rayLength : ℚ) (ray : Ray) (ti : Interval) : Option ℚ :=
  match boundaryHit ray (EQx.ninf, EQx.pinf) with
  | none => none
  | some t1a =>
    match boundaryHit ray (EQx.fin (t1a + 1 / 10000), EQx.pinf) with
    | none => none
    | some t2a =>
      let t1 := max (max t1a ti.start) 0
      let t2 := max (min t2a ti.stop) 0
      if t1 ≥ t2 then none
      else if hitDistance > (t2 - t1) * rayLength then none
      else some (t1 + hitDistance / rayLength)

/-- The `if` condition of `Checker::color_value` (src/texture.rs line 56):
whether the point resolves to the `even` child texture. -/
def checkerPicksEven (invScale : ℚ) (hitPoint : Vec3) : Bool :=
  (i32sat (invScale * hitPoint.x) + i32sat (invScale * hitPoint.y) +
    i32sat (invScale * hitPoint.z)) % 2 = 0

/-- A point lies strictly inside the box with the given three axis
intervals. -/
def strictlyInside (bxI byI bzI : Interval) (p : Vec3) : Prop :=
  (bxI.start < p.x ∧ p.x < bxI.stop) ∧ (byI.start < p.y ∧ p.y < byI.stop) ∧
    (bzI.start < p.z ∧ p.z < bzI.stop)

/-! # Theorems -/

theorem Vec3.sub_def (a b : Vec3) : a - b = ⟨a.x - b.x, a.y - b.y, a.z - b.z⟩ := rfl

theorem Vec3.add_def (a b : Vec3) : a + b = ⟨a.x + b.x, a.y + b.y, a.z + b.z⟩ := rfl

theorem Vec3.neg_def (a : Vec3) : -a = ⟨-a.x, -a.y, -a.z⟩ := rfl

theorem Vec3.lengthSq_nonneg (v : Vec3) : 0 ≤ v.lengthSq := by
  unfold Vec3.lengthSq; positivity

/-- Algebraic identity behind `Sphere::hit`: the squared distance from the
point on the ray at parameter `t` to the sphere center is the intersection
quadratic plus `radius²`. -/
theorem sphere_lengthSq_identity (s : Sphere) (ray : Ray) (t : ℚ) :
    (ray.pointAt t - s.centerAt ray.time).lengthSq =
      Sphere.aOf ray * t ^ 2 - 2 * Sphere.halfB s ray * t + Sphere.cOf s ray +
        s.radius * s.radius := by
  simp only [Ray.pointAt, Sphere.aOf, Sphere.halfB, Sphere.cOf, Vec3.lengthSq, Vec3.dot,
    Vec3.sub_def, Vec3.add_def, Vec3.smul]
  ring

/-- C2: `Sphere::hit` returns `none` on a negative discriminant; otherwise
(with `sqrtD` the non-negative square root of the discriminant) it returns
the smaller root of the intersection quadratic if it is strictly inside the
interval, else the larger root if strictly inside, else `none`; the two
candidates are exactly the roots of `a·t² - 2·half_b·t + c = 0`, ordered,
and any returned `t` puts the hit point at distance `radius` from the
sphere's center at the ray's time. -/
theorem sphere_hit_correct (s : Sphere) (ray : Ray) (ti : Interval) (sqrtD : ℚ)
    (ha : Sphere.aOf ray ≠ 0) (hnn : 0 ≤ sqrtD) :
    (Sphere.disc s ray < 0 → Sphere.hit s ray ti sqrtD = none) ∧
    (sqrtD * sqrtD = Sphere.disc s ray →
      Sphere.hit s ray ti sqrtD =
        (if ti.surrounds ((Sphere.halfB s ray - sqrtD) / Sphere.aOf ray) then
          some ((Sphere.halfB s ray - sqrtD) / Sphere.aOf ray)
        else if ti.surrounds ((Sphere.halfB s ray + sqrtD) / Sphere.aOf ray) then
          some ((Sphere.halfB s ray + sqrtD) / Sphere.aOf ray)
        else none) ∧
      (Sphere.halfB s ray - sqrtD) / Sphere.aOf ray ≤
        (Sphere.halfB s ray + sqrtD) / Sphere.aOf ray ∧
      (∀ t : ℚ,
        Sphere.aOf ray * t ^ 2 - 2 * Sphere.halfB s ray * t + Sphere.cOf s ray = 0 ↔
          (t = (Sphere.halfB s ray - sqrtD) / Sphere.aOf ray ∨
           t = (Sphere.halfB s ray + sqrtD) / Sphere.aOf ray)) ∧
      (∀ t, Sphere.hit s ray ti sqrtD = some t →
        (ray.pointAt t - s.centerAt ray.time).lengthSq = s.radius * s.radius)) := by
  have haPos : 0 < Sphere.aOf ray :=
    lt_of_le_of_ne (Vec3.lengthSq_nonneg ray.direction) (Ne.symm ha)
  constructor
  · intro h
    simp [Sphere.hit, h]
  · intro hsq
    have hd0 : 0 ≤ Sphere.disc s ray := hsq ▸ mul_self_nonneg sqrtD
    have hsel : Sphere.hit s ray ti sqrtD =
        (if ti.surrounds ((Sphere.halfB s ray - sqrtD) / Sphere.aOf ray) then
          some ((Sphere.halfB s ray - sqrtD) / Sphere.aOf ray)
        else if ti.surrounds ((Sphere.halfB s ray + sqrtD) / Sphere.aOf ray) then
          some ((Sphere.halfB s ray + sqrtD) / Sphere.aOf ray)
        else none) := by
      simp only [Sphere.hit, mul_one_div, if_neg (not_lt.mpr hd0)]
    have hroots : ∀ t : ℚ,
        Sphere.aOf ray * t ^ 2 - 2 * Sphere.halfB s ray * t + Sphere.cOf s ray = 0 ↔
          (t = (Sphere.halfB s ray - sqrtD) / Sphere.aOf ray ∨
           t = (Sphere.halfB s ray + sqrtD) / Sphere.aOf ray) := by
      intro t
      constructor
      · intro h
        have key : (Sphere.aOf ray * t - Sphere.halfB s ray) *
            (Sphere.aOf ray * t - Sphere.halfB s ray) = sqrtD * sqrtD := by
          simp only [Sphere.disc] at hsq
          linear_combination Sphere.aOf ray * h - hsq
        rcases mul_self_eq_mul_self_iff.mp key with hk | hk
        · right
          field_simp
          linarith
        · left
          field_simp
          linarith
      · intro h
        rcases h with h | h <;> subst h <;> field_simp <;>
          · simp only [Sphere.disc] at hsq
            linear_combination Sphere.aOf ray ^ 2 * hsq
    refine ⟨hsel, ?_, hroots, ?_⟩
    · gcongr
      linarith
    · intro t ht
      rw [hsel] at ht
      rw [sphere_lengthSq_identity]
      split_ifs at ht with h1 h2
      · have := (hroots t).mpr (Or.inl (Option.some_injective _ ht).symm)
        linarith
      · have := (hroots t).mpr (Or.inr (Option.some_injective _ ht).symm)
        linarith

/-- Witness for `sphere_hit_correct`: a stationary unit sphere at `(0,0,3)`
hit from the origin along `+z` (discriminant `1`, smaller root `2`), and a
sphere at `(5,0,0)` the same ray misses (discriminant `-24`). -/
theorem sphere_hit_correct_witness :
    Sphere.hit ⟨⟨0, 0, 3⟩, 1, false, ⟨0, 0, 0⟩⟩ ⟨⟨0, 0, 0⟩, ⟨0, 0, 1⟩, 0⟩
      ⟨1 / 1000, 1000⟩ 1 = some 2 ∧
    Sphere.hit ⟨⟨5, 0, 0⟩, 1, false, ⟨0, 0, 0⟩⟩ ⟨⟨0, 0, 0⟩, ⟨0, 0, 1⟩, 0⟩
      ⟨1 / 1000, 1000⟩ 0 = none := by
  constructor
  · have h := (sphere_hit_correct ⟨⟨0, 0, 3⟩, 1, false, ⟨0, 0, 0⟩⟩
      ⟨⟨0, 0, 0⟩, ⟨0, 0, 1⟩, 0⟩ ⟨1 / 1000, 1000⟩ 1
      (by norm_num [Sphere.aOf, Vec3.lengthSq]) (by norm_num)).2
      (by norm_num [Sphere.disc, Sphere.aOf, Sphere.halfB, Sphere.cOf, Sphere.centerAt,
        Vec3.dot, Vec3.lengthSq, Vec3.sub_def])
    rw [h.1]
    norm_num [Sphere.aOf, Sphere.halfB, Sphere.centerAt, Vec3.dot, Vec3.lengthSq,
      Vec3.sub_def, Interval.surrounds]
  · exact (sphere_hit_correct ⟨⟨5, 0, 0⟩, 1, false, ⟨0, 0, 0⟩⟩
      ⟨⟨0, 0, 0⟩, ⟨0, 0, 1⟩, 0⟩ ⟨1 / 1000, 1000⟩ 0
      (by norm_num [Sphere.aOf, Vec3.lengthSq]) (by norm_num)).1
      (by norm_num [Sphere.disc, Sphere.aOf, Sphere.halfB, Sphere.cOf, Sphere.centerAt,
        Vec3.dot, Vec3.lengthSq, Vec3.sub_def])

/-- C10: any `time` returned by `Sphere::hit` satisfies the *strict*
inequalities `start < t < end` (the `surrounds` test), whereas `Quad::hit`
uses the closed `contains` test: the concrete quad below reports a hit at
exactly the interval's right endpoint `t = 1`. -/
theorem sphere_hit_strict_interval (s : Sphere) (ray : Ray) (ti : Interval) (sqrtD : ℚ) :
    (∀ t, Sphere.hit s ray ti sqrtD = some t → ti.start < t ∧ t < ti.stop) ∧
    Quad.hit ⟨⟨0, 0, 0⟩, ⟨1, 0, 0⟩, ⟨0, 1, 0⟩, ⟨0, 0, 1⟩, ⟨0, 0, 1⟩, 0⟩
      ⟨⟨1 / 2, 1 / 2, -1⟩, ⟨0, 0, 1⟩, 0⟩ ⟨1 / 1000, 1⟩ = some 1 := by
  constructor
  · intro t h
    simp only [Sphere.hit] at h
    split_ifs at h with h1 h2 h3 <;>
      first
      | exact Option.noConfusion h
      | · obtain rfl := Option.some_injective _ h
          assumption
  · simp [Quad.hit, Vec3.dot, Vec3.cross, Vec3.sub_def, Vec3.add_def, Ray.pointAt,
      Vec3.smul, Interval.contains]
    norm_num

/-- Witness for `sphere_hit_strict_interval`: the sphere hit at `t = 2` from
`sphere_hit_correct_witness` lies strictly inside `(0.001, 1000)`. -/
theorem sphere_hit_strict_interval_witness :
    (1 / 1000 : ℚ) < 2 ∧ (2 : ℚ) < 1000 := by
  have h := (sphere_hit_strict_interval ⟨⟨0, 0, 3⟩, 1, false, ⟨0, 0, 0⟩⟩
    ⟨⟨0, 0, 0⟩, ⟨0, 0, 1⟩, 0⟩ ⟨1 / 1000, 1000⟩ 1).1 2
  exact h (by
    norm_num [Sphere.hit, Sphere.disc, Sphere.aOf, Sphere.halfB, Sphere.cOf,
      Sphere.centerAt, Vec3.dot, Vec3.lengthSq, Vec3.sub_def, Interval.surrounds])

/-- The padding step of `pad_to_minimums` yields size ≥ `1e-4` on an axis
whose interval is not reversed. -/
theorem pad_step_min (i : Interval) (h : 0 ≤ i.size) :
    1 / 10000 ≤ (if i.size < 1 / 10000 then i.expandI (1 / 10000) else i).size := by
  split_ifs with hlt
  · have hx : (i.expandI (1 / 10000)).size = i.size + 1 / 10000 := by
      simp only [Interval.expandI, Interval.size]
      ring
    rw [hx]
    linarith
  · linarith [not_lt.1 hlt]

/-- `Interval::enclose` never shrinks either argument. -/
theorem enclose_size_mono (a b : Interval) : a.size ≤ (Interval.enclose a b).size := by
  simp only [Interval.enclose, Interval.size]
  have h1 : min a.start b.start ≤ a.start := min_le_left _ _
  have h2 : a.stop ≤ max a.stop b.stop := le_max_left _ _
  linarith

/-- C3 counterexample: `Aabb::default()` has size `0 < 1e-4` on every axis
(shown for `x`), and the box `Quad::new` builds for a flat quad in the
`z = 0` plane — via the *unpadded* `AxisAlignedBoundingBox` of src/bvh.rs —
has zero thickness on the `z` axis. -/
theorem aabb_min_size_counterexample :
    Aabb.defaultA.x.size < 1 / 10000 ∧
    (quadBBox ⟨0, 0, 0⟩ ⟨1, 0, 0⟩ ⟨0, 1, 0⟩).z.size = 0 := by
  constructor
  · norm_num [Aabb.defaultA, Interval.size]
  · norm_num [quadBBox, BBox.enclose, BBox.newFromPoints, Interval.enclose,
      Interval.size, Vec3.add_def]

/-- C3 amended: the padding constructors of src/aabb.rs (`new_from_points`
unconditionally; `new` on non-reversed input intervals) produce boxes of
size ≥ `1e-4` on every axis, and `enclose`/`grow` preserve that bound;
`Aabb::default()` and the unpadded src/bvh.rs constructors used by `Quad`
do not (see `aabb_min_size_counterexample`). -/
theorem aabb_pad_min_size (a b : Vec3) (x y z : Interval) (b0 b1 : Aabb) :
    (1 / 10000 ≤ (Aabb.newFromPoints a b).x.size ∧
     1 / 10000 ≤ (Aabb.newFromPoints a b).y.size ∧
     1 / 10000 ≤ (Aabb.newFromPoints a b).z.size) ∧
    (x.start ≤ x.stop → y.start ≤ y.stop → z.start ≤ z.stop →
      1 / 10000 ≤ (Aabb.new x y z).x.size ∧
      1 / 10000 ≤ (Aabb.new x y z).y.size ∧
      1 / 10000 ≤ (Aabb.new x y z).z.size) ∧
    (1 / 10000 ≤ b0.x.size → 1 / 10000 ≤ b1.x.size →
      1 / 10000 ≤ (Aabb.enclose b0 b1).x.size ∧ 1 / 10000 ≤ (Aabb.grow b0 b1).x.size) ∧
    (1 / 10000 ≤ b0.y.size → 1 / 10000 ≤ b1.y.size →
      1 / 10000 ≤ (Aabb.enclose b0 b1).y.size ∧ 1 / 10000 ≤ (Aabb.grow b0 b1).y.size) ∧
    (1 / 10000 ≤ b0.z.size → 1 / 10000 ≤ b1.z.size →
      1 / 10000 ≤ (Aabb.enclose b0 b1).z.size ∧ 1 / 10000 ≤ (Aabb.grow b0 b1).z.size) := by
  refine ⟨⟨?_, ?_, ?_⟩, ?_, ?_, ?_, ?_⟩
  · exact pad_step_min _ (by simp only [Interval.size]; linarith [min_le_max (a := a.x) (b := b.x)])
  · exact pad_step_min _ (by simp only [Interval.size]; linarith [min_le_max (a := a.y) (b := b.y)])
  · exact pad_step_min _ (by simp only [Interval.size]; linarith [min_le_max (a := a.z) (b := b.z)])
  · intro hx hy hz
    exact ⟨pad_step_min _ (by simp only [Interval.size]; linarith),
           pad_step_min _ (by simp only [Interval.size]; linarith),
           pad_step_min _ (by simp only [Interval.size]; linarith)⟩
  · intro h0 _
    exact ⟨le_trans h0 (enclose_size_mono _ _), le_trans h0 (enclose_size_mono _ _)⟩
  · intro h0 _
    exact ⟨le_trans h0 (enclose_size_mono _ _), le_trans h0 (enclose_size_mono _ _)⟩
  · intro h0 _
    exact ⟨le_trans h0 (enclose_size_mono _ _), le_trans h0 (enclose_size_mono _ _)⟩

/-- Witness for `aabb_pad_min_size` at concrete inputs (unit intervals). -/
theorem aabb_pad_min_size_witness :
    1 / 10000 ≤ (Aabb.new ⟨0, 1⟩ ⟨0, 1⟩ ⟨0, 1⟩).x.size ∧
    1 / 10000 ≤ (Aabb.enclose ⟨⟨0, 1⟩, ⟨0, 1⟩, ⟨0, 1⟩⟩ ⟨⟨0, 1⟩, ⟨0, 1⟩, ⟨0, 1⟩⟩).x.size := by
  have h := aabb_pad_min_size ⟨0, 0, 0⟩ ⟨0, 0, 0⟩ ⟨0, 1⟩ ⟨0, 1⟩ ⟨0, 1⟩
    ⟨⟨0, 1⟩, ⟨0, 1⟩, ⟨0, 1⟩⟩ ⟨⟨0, 1⟩, ⟨0, 1⟩, ⟨0, 1⟩⟩
  exact ⟨(h.2.1 (by norm_num) (by norm_num) (by norm_num)).1,
    (h.2.2.1 (by norm_num [Interval.size]) (by norm_num [Interval.size])).1⟩

/-- `Checker::color_value` returns the `even` child's color exactly when the
parity test picks it. -/
theorem checkerColorValue_eq (odd even : ℚ → ℚ → Vec3 → Vec3) (invScale u v : ℚ)
    (p : Vec3) :
    checkerColorValue odd even invScale u v p =
      (if checkerPicksEven invScale p then even else odd) u v p := by
  by_cases h : (i32sat (invScale * p.x) + i32sat (invScale * p.y) +
      i32sat (invScale * p.z)) % 2 = 0
  · simp [checkerColorValue, checkerPicksEven, h]
  · simp [checkerColorValue, checkerPicksEven, h]

/-- C8 counterexample: with `scale = 1`, the points `(2³¹+5, 0, 0)` and
`(2³¹+6, 0, 0)` differ by exactly one scale unit along `x`, yet the
saturating `as i32` cast maps both floors to `i32::MAX`, so both resolve to
the `odd` child instead of opposite children. -/
theorem checker_saturation_counterexample :
    checkerColorValue (fun _ _ _ => ⟨0, 0, 0⟩) (fun _ _ _ => ⟨1, 1, 1⟩) 1 0 0
      ⟨2 ^ 31 + 5, 0, 0⟩ = ⟨0, 0, 0⟩ ∧
    checkerColorValue (fun _ _ _ => ⟨0, 0, 0⟩) (fun _ _ _ => ⟨1, 1, 1⟩) 1 0 0
      ⟨2 ^ 31 + 6, 0, 0⟩ = ⟨0, 0, 0⟩ := by
  constructor <;>
    norm_num [checkerColorValue, i32sat, min_def, max_def]

/-- C8 amended: two points one scale unit apart along a single axis resolve
to opposite child textures *provided* every involved `floor` value lies
within the `i32` range (the saturating cast is the identity there). -/
theorem checker_parity_flip (odd even : ℚ → ℚ → Vec3 → Vec3) (scale u v : ℚ)
    (p1 p2 : Vec3) (hs : scale ≠ 0)
    (haxis : p2 = ⟨p1.x + scale, p1.y, p1.z⟩ ∨ p2 = ⟨p1.x, p1.y + scale, p1.z⟩ ∨
      p2 = ⟨p1.x, p1.y, p1.z + scale⟩)
    (hrange : ∀ c ∈ [(1 / scale) * p1.x, (1 / scale) * p1.y, (1 / scale) * p1.z,
        (1 / scale) * p2.x, (1 / scale) * p2.y, (1 / scale) * p2.z],
      -(2 ^ 31) ≤ ⌊c⌋ ∧ ⌊c⌋ ≤ 2 ^ 31 - 1) :
    checkerPicksEven (1 / scale) p2 = ! checkerPicksEven (1 / scale) p1 ∧
    checkerColorValue odd even (1 / scale) u v p2 =
      (if checkerPicksEven (1 / scale) p1 then odd else even) u v p2 := by
  have hsat : ∀ c : ℚ, -(2 ^ 31) ≤ ⌊c⌋ → ⌊c⌋ ≤ 2 ^ 31 - 1 → i32sat c = ⌊c⌋ := by
    intro c h1 h2
    simp only [i32sat]
    omega
  have hshift : ∀ c : ℚ, (1 / scale) * (c + scale) = (1 / scale) * c + 1 := by
    intro c
    field_simp
  have hflip : checkerPicksEven (1 / scale) p2 = ! checkerPicksEven (1 / scale) p1 := by
    obtain ⟨hx1, hx2⟩ := hrange ((1 / scale) * p1.x) (by simp)
    obtain ⟨hy1, hy2⟩ := hrange ((1 / scale) * p1.y) (by simp)
    obtain ⟨hz1, hz2⟩ := hrange ((1 / scale) * p1.z) (by simp)
    obtain ⟨hx1b, hx2b⟩ := hrange ((1 / scale) * p2.x) (by simp)
    obtain ⟨hy1b, hy2b⟩ := hrange ((1 / scale) * p2.y) (by simp)
    obtain ⟨hz1b, hz2b⟩ := hrange ((1 / scale) * p2.z) (by simp)
    have hsum : i32sat ((1 / scale) * p2.x) + i32sat ((1 / scale) * p2.y) +
        i32sat ((1 / scale) * p2.z) =
        i32sat ((1 / scale) * p1.x) + i32sat ((1 / scale) * p1.y) +
          i32sat ((1 / scale) * p1.z) + 1 := by
      rcases haxis with h | h | h <;> subst h <;>
        simp only [hsat _ hx1 hx2, hsat _ hy1 hy2, hsat _ hz1 hz2,
          hsat _ hx1b hx2b, hsat _ hy1b hy2b, hsat _ hz1b hz2b] at * <;>
        · rw [hshift, Int.floor_add_one]
          ring
    simp only [checkerPicksEven, hsum]
    rcases Int.emod_two_eq_zero_or_one (i32sat ((1 / scale) * p1.x) +
        i32sat ((1 / scale) * p1.y) + i32sat ((1 / scale) * p1.z)) with h | h
    · have h1 : (i32sat ((1 / scale) * p1.x) + i32sat ((1 / scale) * p1.y) +
          i32sat ((1 / scale) * p1.z) + 1) % 2 = 1 := by omega
      rw [h1, h]
      decide
    · have h1 : (i32sat ((1 / scale) * p1.x) + i32sat ((1 / scale) * p1.y) +
          i32sat ((1 / scale) * p1.z) + 1) % 2 = 0 := by omega
      rw [h1, h]
      decide
  refine ⟨hflip, ?_⟩
  rw [checkerColorValue_eq, hflip]
  cases checkerPicksEven (1 / scale) p1 <;> simp

/-- Witness for `checker_parity_flip`: `scale = 1`, points `(0,0,0)` and
`(1,0,0)`; the first picks `even`, the second `odd`. -/
theorem checker_parity_flip_witness :
    checkerPicksEven (1 / 1) ⟨1, 0, 0⟩ = ! checkerPicksEven (1 / 1) ⟨0, 0, 0⟩ := by
  exact (checker_parity_flip (fun _ _ _ => ⟨0, 0, 0⟩) (fun _ _ _ => ⟨1, 1, 1⟩) 1 0 0
    ⟨0, 0, 0⟩ ⟨1, 0, 0⟩ (by norm_num) (Or.inl (by norm_num))
    (by intro c hc; fin_cases hc <;> norm_num)).1

/-- C7 (code bug): `ImageTex::color_value` does *not* clamp the computed
pixel indices: on a 1×1 image, the legal texture coordinate `v = 0` yields
row index `j = height = 1` and a slice `data[3..6]` outside the 3-byte
raster (a panic, modelled as `none`), while an interior coordinate reads
the pixel bytes normalized by 255 as the spec describes. -/
theorem image_tex_out_of_bounds :
    ImageTex.colorValue ⟨[10, 20, 30], 1, 1⟩ (1 / 2) 0 = none ∧
    ImageTex.colorValue ⟨[10, 20, 30], 1, 1⟩ (1 / 2) (1 / 2) =
      some ⟨10 / 255, 20 / 255, 30 / 255⟩ := by
  constructor <;>
    norm_num [ImageTex.colorValue, ImageTex.getPixel, usizeCast, List.get]

/-- `Camera::ray_color` produces a componentwise non-negative color whenever
the background, all emitted colors and all attenuations are non-negative. -/
theorem rayColor_nonneg (world : Ray → Option HitOutcome) (background : Vec3)
    (hw : ∀ r h, world r = some h → h.emitted.Nonneg ∧
      ∀ att sc, h.scatterRes = some (att, sc) → att.Nonneg)
    (hb : background.Nonneg) :
    ∀ (depth : ℕ) (ray : Ray), (rayColor world background depth ray).Nonneg := by
  intro depth
  induction depth with
  | zero =>
    intro ray
    exact ⟨le_refl 0, le_refl 0, le_refl 0⟩
  | succ d ih =>
    intro ray
    simp only [rayColor]
    cases hwr : world ray with
    | none => exact hb
    | some hr =>
      dsimp only
      obtain ⟨he, hs⟩ := hw ray hr hwr
      cases hsr : hr.scatterRes with
      | none => exact he
      | some p =>
        obtain ⟨att, sc⟩ := p
        have hatt := hs att sc hsr
        have hrec := ih sc
        exact ⟨add_nonneg he.1 (mul_nonneg hatt.1 hrec.1),
               add_nonneg he.2.1 (mul_nonneg hatt.2.1 hrec.2.1),
               add_nonneg he.2.2 (mul_nonneg hatt.2.2 hrec.2.2)⟩

/-- Folding `Vec3::add` over non-negative colors preserves non-negativity. -/
theorem foldl_add_nonneg : ∀ (l : List Vec3), (∀ c ∈ l, c.Nonneg) →
    ∀ acc : Vec3, acc.Nonneg → (l.foldl Vec3.add acc).Nonneg := by
  intro l
  induction l with
  | nil => intro _ acc hacc; exact hacc
  | cons c cs ih =>
    intro hl acc hacc
    have hc := hl c (by simp)
    exact ih (fun d hd => hl d (by simp [hd])) (Vec3.add acc c)
      ⟨add_nonneg hacc.1 hc.1, add_nonneg hacc.2.1 hc.2.1, add_nonneg hacc.2.2 hc.2.2⟩

/-- C4: for any abstract scene with non-negative emitted colors,
attenuations and background, the resolved pixel color — the sum of
`ray_color` over the sample rays scaled by `pixel_sample_scale =
1/samples_per_pixel` — is componentwise non-negative, for every pixel's
sample rays, sample count and recursion depth. -/
theorem render_pixel_nonneg (world : Ray → Option HitOutcome) (background : Vec3)
    (depth : ℕ) (sampleRays : List Ray) (samplesPerPixel : ℕ)
    (hw : ∀ r h, world r = some h → h.emitted.Nonneg ∧
      ∀ att sc, h.scatterRes = some (att, sc) → att.Nonneg)
    (hb : background.Nonneg) :
    (renderPixel world background depth sampleRays
      (1 / (samplesPerPixel : ℚ))).Nonneg := by
  have hscale : (0 : ℚ) ≤ 1 / (samplesPerPixel : ℚ) := by positivity
  have hsum : ((sampleRays.map (rayColor world background depth)).foldl
      Vec3.add Vec3.zero).Nonneg := by
    apply foldl_add_nonneg
    · intro c hc
      obtain ⟨r, _, rfl⟩ := List.mem_map.mp hc
      exact rayColor_nonneg world background hw hb depth r
    · exact ⟨le_refl 0, le_refl 0, le_refl 0⟩
  exact ⟨mul_nonneg hscale hsum.1, mul_nonneg hscale hsum.2.1,
    mul_nonneg hscale hsum.2.2⟩

/-- Witness for `render_pixel_nonneg`: a one-sample scene whose single query
misses (background gray), depth 5. -/
theorem render_pixel_nonneg_witness :
    (renderPixel (fun _ => none) ⟨7 / 10, 8 / 10, 1⟩ 5 [⟨⟨0, 0, 0⟩, ⟨0, 0, 1⟩, 0⟩]
      (1 / (1 : ℕ))).Nonneg := by
  exact render_pixel_nonneg (fun _ => none) ⟨7 / 10, 8 / 10, 1⟩ 5
    [⟨⟨0, 0, 0⟩, ⟨0, 0, 1⟩, 0⟩] 1
    (by intro r h hrh; exact Option.noConfusion hrh) (by norm_num [Vec3.Nonneg])

/-- C6: `Dielectric::scatter` always returns a scatter with attenuation
exactly `(1,1,1)`, and under total internal reflection — the relative
refractive index times the sine of the incidence angle exceeds 1 — the
scattered direction is the reflection of the unit incident direction about
the hit normal, regardless of the reflectance random draw.  `sinTheta` is
constrained to be the sine the code computes from `cos θ`. -/
theorem dielectric_scatter_tir (refractionIndex : ℚ) (front : Bool)
    (normal unitDir : Vec3) (sinTheta randDraw refrSqrt : ℚ)
    (hunit : unitDir.lengthSq = 1) (hsin0 : 0 ≤ sinTheta)
    (hsin : sinTheta ^ 2 = 1 - (min ((Vec3.neg unitDir).dot normal) 1) ^ 2) :
    (dielectricScatter refractionIndex front normal unitDir sinTheta randDraw
      refrSqrt).1 = ⟨1, 1, 1⟩ ∧
    ((if front then 1 / refractionIndex else refractionIndex) * sinTheta > 1 →
      (dielectricScatter refractionIndex front normal unitDir sinTheta randDraw
        refrSqrt).2 = Vec3.reflect unitDir normal) := by
  constructor
  · rfl
  · intro h
    simp only [dielectricScatter]
    rw [if_pos (Or.inl h)]

/-- Witness for `dielectric_scatter_tir`: glass with `refraction_index =
1.5` hit on its interior (`front = false`) by the unit direction
`(4/5, 0, -3/5)` against normal `(0,0,1)`: `sin θ = 4/5 > 1/1.5`, so the
result is the reflection `(4/5, 0, 3/5)` with attenuation `(1,1,1)`. -/
theorem dielectric_scatter_tir_witness :
    (dielectricScatter (3 / 2) false ⟨0, 0, 1⟩ ⟨4 / 5, 0, -(3 / 5)⟩ (4 / 5) (1 / 2)
      0).1 = ⟨1, 1, 1⟩ ∧
    (dielectricScatter (3 / 2) false ⟨0, 0, 1⟩ ⟨4 / 5, 0, -(3 / 5)⟩ (4 / 5) (1 / 2)
      0).2 = ⟨4 / 5, 0, 3 / 5⟩ := by
  have h := dielectric_scatter_tir (3 / 2) false ⟨0, 0, 1⟩ ⟨4 / 5, 0, -(3 / 5)⟩
    (4 / 5) (1 / 2) 0
    (by norm_num [Vec3.lengthSq]) (by norm_num)
    (by norm_num [Vec3.neg, Vec3.dot, min_def])
  refine ⟨h.1, ?_⟩
  rw [h.2 (by norm_num)]
  norm_num [Vec3.reflect, Vec3.dot, Vec3.smul, Vec3.sub]

/-- C5: `ConstantMedium::hit` computes exactly the algorithm the spec
describes (`constantMediumHitSpec`): entry/exit times from two nested
boundary queries (the second starting `1e-4` past the first), both clamped
to the caller's interval and to `t ≥ 0`, no interaction when `t1 ≥ t2` or
when the sampled `hit_distance` exceeds the distance available inside the
boundary, otherwise a scatter at `t1 + hit_distance/|D|`.  The code's only
structural deviations — clamping `t1` to `0` after the `t1 >= t2` test and
never clamping `t2` to `0` — are unobservable because `hit_distance =
-ln(U)/density > 0` for `U ∈ (0,1)` and `|D| > 0`. -/
theorem constant_medium_hit_correct (boundaryHit : Ray → EQx × EQx → Option ℚ)
    (hitDistance rayLength : ℚ) (ray : Ray) (ti : Interval)
    (hd : 0 < hitDistance) (hl : 0 < rayLength) :
    constantMediumHit boundaryHit hitDistance rayLength ray ti =
      constantMediumHitSpec boundaryHit hitDistance rayLength ray ti := by
  unfold constantMediumHit constantMediumHitSpec
  cases boundaryHit ray (EQx.ninf, EQx.pinf) with
  | none => rfl
  | some t1a =>
    dsimp only
    cases boundaryHit ray (EQx.fin (t1a + 1 / 10000), EQx.pinf) with
    | none => rfl
    | some t2a =>
      dsimp only
      have e1 : (if t1a < ti.start then ti.start else t1a) = max t1a ti.start := by
        split_ifs with h
        · exact (max_eq_right h.le).symm
        · exact (max_eq_left (not_lt.1 h)).symm
      have e2 : (if ti.stop < t2a then ti.stop else t2a) = min t2a ti.stop := by
        split_ifs with h
        · exact (min_eq_right h.le).symm
        · exact (min_eq_left (not_lt.1 h)).symm
      rw [e1, e2]
      have e3 : (if max t1a ti.start < 0 then 0 else max t1a ti.start) =
          max (max t1a ti.start) 0 := by
        split_ifs with h
        · exact (max_eq_right h.le).symm
        · exact (max_eq_left (not_lt.1 h)).symm
      by_cases hge : max t1a ti.start ≥ min t2a ti.stop
      · rw [if_pos hge, if_pos (max_le_max hge le_rfl)]
      · rw [if_neg hge]
        push_neg at hge
        by_cases hA2 : min t2a ti.stop ≤ 0
        · have hs : max (max t1a ti.start) 0 ≥ max (min t2a ti.stop) 0 := by
            rw [max_eq_right hA2]
            exact le_max_right _ _
          rw [if_pos hs, e3]
          have hneg : (min t2a ti.stop - max (max t1a ti.start) 0) * rayLength ≤ 0 :=
            mul_nonpos_of_nonpos_of_nonneg
              (by linarith [le_max_right (max t1a ti.start) 0]) hl.le
          rw [if_pos (by linarith : hitDistance > (min t2a ti.stop -
            max (max t1a ti.start) 0) * rayLength)]
        · push_neg at hA2
          have hS2 : max (min t2a ti.stop) 0 = min t2a ti.stop := max_eq_left hA2.le
          have hS1 : max (max t1a ti.start) 0 < min t2a ti.stop := max_lt hge hA2
          rw [hS2, if_neg (not_le.2 hS1), e3]

/-- Witness for `constant_medium_hit_correct`: a slab boundary entered at
`t = 2` and left at `t = 5`, unit density draw and unit-length direction. -/
theorem constant_medium_hit_correct_witness :
    constantMediumHit
      (fun _ iv =>
        match iv.1 with
        | EQx.ninf => some 2
        | EQx.fin q => if q ≤ 5 then some 5 else none
        | _ => none) 1 1 ⟨⟨0, 0, 0⟩, ⟨0, 0, 1⟩, 0⟩ ⟨0, 10⟩ =
    constantMediumHitSpec
      (fun _ iv =>
        match iv.1 with
        | EQx.ninf => some 2
        | EQx.fin q => if q ≤ 5 then some 5 else none
        | _ => none) 1 1 ⟨⟨0, 0, 0⟩, ⟨0, 0, 1⟩, 0⟩ ⟨0, 10⟩ :=
  constant_medium_hit_correct _ 1 1 _ _ (by norm_num) (by norm_num)

/-! ## BVH traversal versus linear scan: lemmas about `optMin`/`listBest` -/

theorem optMin_none_right (x : Option ℚ) : optMin x none = x := by
  cases x <;> rfl

theorem optMin_some_some (a b : ℚ) : optMin (some a) (some b) = some (min a b) := by
  simp only [optMin]
  by_cases h : a < b
  · rw [if_pos h, min_eq_left h.le]
  · rw [if_neg h, min_eq_right (not_lt.1 h)]

theorem optMin_assoc (x y z : Option ℚ) :
    optMin (optMin x y) z = optMin x (optMin y z) := by
  cases x with
  | none => rfl
  | some a =>
    cases y with
    | none => cases z <;> rfl
    | some b =>
      cases z with
      | none => rfl
      | some c =>
        rw [optMin_some_some, optMin_some_some, optMin_some_some, optMin_some_some,
          min_assoc]

theorem listBest_cons (x : Option ℚ) (L : List (Option ℚ)) :
    listBest (x :: L) = optMin x (listBest L) := rfl

theorem listBest_append (A B : List (Option ℚ)) :
    listBest (A ++ B) = optMin (listBest A) (listBest B) := by
  induction A with
  | nil => rfl
  | cons x xs ih =>
    rw [List.cons_append, listBest_cons, listBest_cons, ih, optMin_assoc]

theorem listBest_all_none (L : List (Option ℚ)) (h : ∀ x ∈ L, x = none) :
    listBest L = none := by
  induction L with
  | nil => rfl
  | cons x xs ih =>
    rw [listBest_cons, h x (by simp), ih (fun y hy => h y (by simp [hy]))]
    rfl

theorem listBest_none_mem (L : List (Option ℚ)) (h : listBest L = none) :
    ∀ x ∈ L, x = none := by
  induction L with
  | nil => simp
  | cons x xs ih =>
    rw [listBest_cons] at h
    have hx : x = none := by
      cases x with
      | none => rfl
      | some a =>
        exfalso
        cases hxs : listBest xs <;> rw [hxs] at h <;> simp [optMin] at h
    intro y hy
    rcases List.mem_cons.mp hy with rfl | hy2
    · exact hx
    · rw [hx] at h
      exact ih h y hy2

theorem listBest_some_mem (L : List (Option ℚ)) :
    ∀ m : ℚ, listBest L = some m → some m ∈ L ∧ ∀ t, some t ∈ L → m ≤ t := by
  induction L with
  | nil => intro m h; exact Option.noConfusion h
  | cons x xs ih =>
    intro m h
    rw [listBest_cons] at h
    cases x with
    | none =>
      obtain ⟨hmem, hmin⟩ := ih m h
      refine ⟨by simp [hmem], ?_⟩
      intro t ht
      rcases List.mem_cons.mp ht with he | ht2
      · exact Option.noConfusion he
      · exact hmin t ht2
    | some a =>
      cases hxs : listBest xs with
      | none =>
        rw [hxs, optMin_none_right] at h
        obtain rfl := Option.some_injective _ h
        refine ⟨by simp, ?_⟩
        intro t ht
        rcases List.mem_cons.mp ht with he | ht2
        · obtain rfl := Option.some_injective _ he.symm
          exact le_refl _
        · exact absurd (listBest_none_mem xs hxs _ ht2) (by simp)
      | some b =>
        rw [hxs, optMin_some_some] at h
        obtain rfl := Option.some_injective _ h
        obtain ⟨hmemb, hminb⟩ := ih b hxs
        constructor
        · rcases le_total a b with hab | hba
          · rw [min_eq_left hab]
            simp
          · rw [min_eq_right hba]
            simp [hmemb]
        · intro t ht
          rcases List.mem_cons.mp ht with he | ht2
          · obtain rfl := Option.some_injective _ he.symm
            exact min_le_left _ _
          · exact le_trans (min_le_right a b) (hminb t ht2)

theorem listBest_eq_some (L : List (Option ℚ)) (m : ℚ) (hmem : some m ∈ L)
    (hmin : ∀ t, some t ∈ L → m ≤ t) : listBest L = some m := by
  induction L with
  | nil => exact absurd hmem (by simp)
  | cons x xs ih =>
    rw [listBest_cons]
    rcases List.mem_cons.mp hmem with he | hmem2
    · subst he
      cases hxs : listBest xs with
      | none => rfl
      | some b =>
        have hb : m ≤ b := hmin b (by
          simp [(listBest_some_mem xs b hxs).1])
        rw [optMin_some_some, min_eq_left hb]
    · have hxs : listBest xs = some m :=
        ih hmem2 (fun t ht => hmin t (by simp [ht]))
      rw [hxs]
      cases x with
      | none => rfl
      | some a =>
        have ha : m ≤ a := hmin a (by simp)
        rw [optMin_some_some, min_eq_right ha]

theorem listBest_congr (L1 L2 : List (Option ℚ)) (h : ∀ x, x ∈ L1 ↔ x ∈ L2) :
    listBest L1 = listBest L2 := by
  cases h1 : listBest L1 with
  | none =>
    exact (listBest_all_none L2
      (fun x hx => listBest_none_mem L1 h1 x ((h x).mpr hx))).symm
  | some m =>
    obtain ⟨hmem, hmin⟩ := listBest_some_mem L1 m h1
    exact (listBest_eq_some L2 m ((h _).mp hmem)
      (fun t ht => hmin t ((h _).mpr ht))).symm

/-- `BVHNode::hit` on a tree with conservative boxes computes the least hit
time of its primitives, each queried over the full input interval. -/
theorem bvh_hit_eq_listBest {α : Type} (primHit : α → Ray → Interval → Option ℚ)
    (ray : Ray) (ti : Interval) (tr : BVHTree α)
    (hcons : Conservative primHit ray ti tr) :
    BVHTree.hit primHit ray ti tr =
      listBest (tr.prims.map (fun p => primHit p ray ti)) := by
  induction tr with
  | leaf p =>
    show primHit p ray ti = optMin (primHit p ray ti) none
    rw [optMin_none_right]
  | node box l r ihl ihr =>
    obtain ⟨hbox, hl, hr⟩ := hcons
    show (if BBox.hit box ray ti then _ else none) = _
    by_cases hb : BBox.hit box ray ti
    · rw [if_pos hb]
      have hmerge : (match l.hit primHit ray ti, r.hit primHit ray ti with
          | some a, some b => some (if a < b then a else b)
          | some a, none => some a
          | none, some b => some b
          | none, none => none) =
          optMin (l.hit primHit ray ti) (r.hit primHit ray ti) := by
        cases l.hit primHit ray ti <;> cases r.hit primHit ray ti <;> rfl
      rw [hmerge, ihl hl, ihr hr]
      show _ = listBest ((l.prims ++ r.prims).map fun p => primHit p ray ti)
      rw [List.map_append, listBest_append]
    · rw [if_neg hb]
      have hall := hbox (by simpa using hb)
      exact (listBest_all_none _ (by
        intro x hx
        obtain ⟨p, hp, rfl⟩ := List.mem_map.mp hx
        exact hall p hp)).symm

/-- The scan of `EntityCluster::hit`, started in any reachable state,
computes the least hit time over the full interval, provided every
primitive is interval-well-behaved. -/
theorem scanAux_eq {α : Type} (primHit : α → Ray → Interval → Option ℚ)
    (ray : Ray) (s e0 : ℚ) :
    ∀ (ps : List α), (∀ p ∈ ps, GoodPrim primHit p ray s) →
    ∀ (c : ℚ) (r : Option ℚ),
      ((r = none ∧ e0 = c) ∨ (∃ t0, r = some t0 ∧ t0 = c ∧ t0 ≤ e0)) →
      scanHitAux primHit ray s ps c r =
        optMin r (listBest (ps.map fun p => primHit p ray ⟨s, e0⟩)) := by
  intro ps
  induction ps with
  | nil =>
    intro _ c r _
    show r = optMin r none
    rw [optMin_none_right]
  | cons p ps ih =>
    intro hg c r hinv
    obtain ⟨hW3, hW1, hW2⟩ := hg p (by simp)
    have hgtail : ∀ q ∈ ps, GoodPrim primHit q ray s := fun q hq => hg q (by simp [hq])
    rcases hinv with ⟨rfl, rfl⟩ | ⟨t0, rfl, rfl, ht0⟩
    · show (match primHit p ray ⟨s, e0⟩ with
        | some t => scanHitAux primHit ray s ps t (some t)
        | none => scanHitAux primHit ray s ps e0 none) = _
      rw [List.map_cons, listBest_cons]
      cases hF : primHit p ray ⟨s, e0⟩ with
      | none =>
        dsimp only
        rw [ih hgtail e0 none (Or.inl ⟨rfl, rfl⟩)]
        rfl
      | some t =>
        dsimp only
        have hte := (hW3 e0 t hF).2
        rw [ih hgtail t (some t) (Or.inr ⟨t, rfl, rfl, hte⟩)]
        rfl
    · show (match primHit p ray ⟨s, t0⟩ with
        | some t => scanHitAux primHit ray s ps t (some t)
        | none => scanHitAux primHit ray s ps t0 (some t0)) = _
      rw [List.map_cons, listBest_cons]
      cases hF : primHit p ray ⟨s, t0⟩ with
      | none =>
        dsimp only
        rw [ih hgtail t0 (some t0) (Or.inr ⟨t0, rfl, rfl, ht0⟩)]
        cases hF0 : primHit p ray ⟨s, e0⟩ with
        | none => rfl
        | some tb =>
          have htb : t0 ≤ tb := by
            by_contra hlt
            push_neg at hlt
            exact absurd (hW1 e0 t0 tb ht0 hF0 hlt) (by simp [hF])
          cases hxs : listBest (ps.map fun q => primHit q ray ⟨s, e0⟩) with
          | none =>
            simp only [optMin_none_right]
            rw [optMin_some_some, min_eq_left htb]
          | some c =>
            simp only [optMin_some_some]
            rw [← min_assoc, min_eq_left htb]
      | some t =>
        dsimp only
        have hW3t := hW3 t0 t hF
        have hF0 : primHit p ray ⟨s, e0⟩ = some t := hW2 e0 t0 t ht0 hF
        rw [ih hgtail t (some t) (Or.inr ⟨t, rfl, rfl, le_trans hW3t.2 ht0⟩), hF0]
        cases hxs : listBest (ps.map fun q => primHit q ray ⟨s, e0⟩) with
        | none =>
          simp only [optMin_none_right]
          rw [optMin_some_some, min_eq_right hW3t.2]
        | some c =>
          simp only [optMin_some_some]
          rw [min_eq_right (le_trans (min_le_left t c) hW3t.2)]

/-- `EntityCluster::hit` equals the least hit time over the full interval. -/
theorem scanHit_eq_listBest {α : Type} (primHit : α → Ray → Interval → Option ℚ)
    (ray : Ray) (ti : Interval) (prims : List α)
    (hg : ∀ p ∈ prims, GoodPrim primHit p ray ti.start) :
    scanHit primHit ray ti prims =
      listBest (prims.map fun p => primHit p ray ⟨ti.start, ti.stop⟩) := by
  unfold scanHit
  exact scanAux_eq primHit ray ti.start ti.stop prims hg ti.stop none
    (Or.inl ⟨rfl, rfl⟩)

/-- C1 amended: BVH traversal and brute-force scan return the same closest
hit time for every ray and interval, *provided* (i) every primitive's hit
function is interval-well-behaved (`GoodPrim`, as the sphere and quad
intersection routines are), and (ii) every node box test is conservative
for the query (`Conservative`): whenever a node's slab test fails, no
primitive below it hits.  Without (ii) the claim is false on the code —
see `bvh_flat_quad_counterexample`: a flat quad's unpadded box makes the
slab test fail for every ray that hits the quad. -/
theorem bvh_hit_eq_scan {α : Type} (primHit : α → Ray → Interval → Option ℚ)
    (ray : Ray) (ti : Interval) (tr : BVHTree α) (prims : List α)
    (hg : ∀ p ∈ prims, GoodPrim primHit p ray ti.start)
    (hcons : Conservative primHit ray ti tr)
    (hmem : ∀ p, p ∈ tr.prims ↔ p ∈ prims) :
    BVHTree.hit primHit ray ti tr = scanHit primHit ray ti prims := by
  rw [bvh_hit_eq_listBest primHit ray ti tr hcons,
    scanHit_eq_listBest primHit ray ti prims hg]
  exact listBest_congr _ _ (by
    intro x
    constructor
    · intro hx
      obtain ⟨p, hp, rfl⟩ := List.mem_map.mp hx
      exact List.mem_map.mpr ⟨p, (hmem p).mp hp, rfl⟩
    · intro hx
      obtain ⟨p, hp, rfl⟩ := List.mem_map.mp hx
      exact List.mem_map.mpr ⟨p, (hmem p).mpr hp, rfl⟩)

/-- Witness for `bvh_hit_eq_scan`: a single primitive that never hits, in
the one-leaf tree; both traversal and scan return `none`. -/
theorem bvh_hit_eq_scan_witness :
    BVHTree.hit (fun (_ : Unit) _ _ => none) ⟨⟨0, 0, 0⟩, ⟨0, 0, 1⟩, 0⟩
      ⟨1 / 1000, 1000⟩ (BVHTree.leaf ()) =
    scanHit (fun (_ : Unit) _ _ => none) ⟨⟨0, 0, 0⟩, ⟨0, 0, 1⟩, 0⟩
      ⟨1 / 1000, 1000⟩ [()] := by
  exact bvh_hit_eq_scan (fun _ _ _ => none) ⟨⟨0, 0, 0⟩, ⟨0, 0, 1⟩, 0⟩
    ⟨1 / 1000, 1000⟩ (BVHTree.leaf ()) [()]
    (by
      intro p _
      refine ⟨?_, ?_, ?_⟩
      · intro e t h
        exact Option.noConfusion h
      · intro e eSm t _ h
        exact absurd h (by simp)
      · intro e eSm t _ h
        exact absurd h (by simp))
    trivial
    (by intro p; simp [BVHTree.prims])

/-- C1 counterexample: the BVH built from a single flat quad in the plane
`z = 0` (as `BVHNode::new` builds it: both children the quad, box the
enclosure of the quad's unpadded box, whose `z` slab is `[0,0]`) misses the
ray through the quad's interior, while the brute-force scan reports the
hit at `t = 1`: the degenerate `z` slab clips the interval to emptiness
(`end <= start`) and the node returns `None` without consulting the quad. -/
theorem bvh_flat_quad_counterexample :
    BVHTree.hit Quad.hit ⟨⟨1 / 2, 1 / 2, -1⟩, ⟨0, 0, 1⟩, 0⟩ ⟨1 / 1000, 1000⟩
      (BVHTree.node
        (BBox.enclose (quadBBox ⟨0, 0, 0⟩ ⟨1, 0, 0⟩ ⟨0, 1, 0⟩)
          (quadBBox ⟨0, 0, 0⟩ ⟨1, 0, 0⟩ ⟨0, 1, 0⟩))
        (BVHTree.leaf ⟨⟨0, 0, 0⟩, ⟨1, 0, 0⟩, ⟨0, 1, 0⟩, ⟨0, 0, 1⟩, ⟨0, 0, 1⟩, 0⟩)
        (BVHTree.leaf ⟨⟨0, 0, 0⟩, ⟨1, 0, 0⟩, ⟨0, 1, 0⟩, ⟨0, 0, 1⟩, ⟨0, 0, 1⟩, 0⟩)) =
      none ∧
    scanHit Quad.hit ⟨⟨1 / 2, 1 / 2, -1⟩, ⟨0, 0, 1⟩, 0⟩ ⟨1 / 1000, 1000⟩
      [⟨⟨0, 0, 0⟩, ⟨1, 0, 0⟩, ⟨0, 1, 0⟩, ⟨0, 0, 1⟩, ⟨0, 0, 1⟩, 0⟩] = some 1 := by
  constructor
  · have hbox : BBox.hit
        (BBox.enclose (quadBBox ⟨0, 0, 0⟩ ⟨1, 0, 0⟩ ⟨0, 1, 0⟩)
          (quadBBox ⟨0, 0, 0⟩ ⟨1, 0, 0⟩ ⟨0, 1, 0⟩))
        ⟨⟨1 / 2, 1 / 2, -1⟩, ⟨0, 0, 1⟩, 0⟩ ⟨1 / 1000, 1000⟩ = false := by
      norm_num [BBox.hit, slabAxisB, quadBBox, BBox.enclose, BBox.newFromPoints,
        Interval.enclose, Vec3.add_def, EQx.inv1, EQx.mulFin, EQx.lt, EQx.le]
    show BVHTree.hit Quad.hit _ _ _ = none
    simp only [BVHTree.hit, hbox]
    rfl
  · have hq : Quad.hit ⟨⟨0, 0, 0⟩, ⟨1, 0, 0⟩, ⟨0, 1, 0⟩, ⟨0, 0, 1⟩, ⟨0, 0, 1⟩, 0⟩
        ⟨⟨1 / 2, 1 / 2, -1⟩, ⟨0, 0, 1⟩, 0⟩ ⟨1 / 1000, 1000⟩ = some 1 := by
      norm_num [Quad.hit, Vec3.dot, Vec3.cross, Vec3.sub_def, Vec3.add_def,
        Ray.pointAt, Vec3.smul, Interval.contains]
    unfold scanHit
    simp only [scanHitAux, hq]

/-! ## The slab test with IEEE infinities (C9): step lemmas -/

theorem EQx.inv1_zero : EQx.inv1 0 = EQx.pinf := by
  simp [EQx.inv1]

theorem EQx.inv1_ne (d : ℚ) (hd : d ≠ 0) : EQx.inv1 d = EQx.fin (1 / d) := by
  simp [EQx.inv1, hd]

theorem EQx.mulFin_pos_pinf (a : ℚ) (h : 0 < a) :
    EQx.mulFin a EQx.pinf = EQx.pinf := by
  simp [EQx.mulFin, h]

theorem EQx.mulFin_neg_pinf (a : ℚ) (h : a < 0) :
    EQx.mulFin a EQx.pinf = EQx.ninf := by
  simp only [EQx.mulFin]
  rw [if_neg (by linarith), if_pos h]

theorem EQx.mulFin_zero_pinf : EQx.mulFin 0 EQx.pinf = EQx.nan := by
  norm_num [EQx.mulFin]

theorem EQx.lt_fin_fin (a b : ℚ) : EQx.lt (EQx.fin a) (EQx.fin b) = decide (a < b) := rfl

theorem EQx.le_fin_fin (a b : ℚ) : EQx.le (EQx.fin a) (EQx.fin b) = decide (a ≤ b) := rfl

/-- `if t0 > start { start = t0 }` on finite values is a `max`. -/
theorem finIf_max (a p : ℚ) :
    (if EQx.lt (EQx.fin a) (EQx.fin p) then EQx.fin p else EQx.fin a) =
      EQx.fin (max a p) := by
  simp only [EQx.lt_fin_fin]
  by_cases h : a < p
  · simp [h, max_eq_right h.le]
  · simp [h, max_eq_left (not_lt.1 h)]

/-- `if t1 < end { end = t1 }` on finite values is a `min`. -/
theorem finIf_min (b p : ℚ) :
    (if EQx.lt (EQx.fin p) (EQx.fin b) then EQx.fin p else EQx.fin b) =
      EQx.fin (min b p) := by
  simp only [EQx.lt_fin_fin]
  by_cases h : p < b
  · simp [h, min_eq_right h.le]
  · simp [h, min_eq_left (not_lt.1 h)]

/-- A degenerate axis (`dir = 0`) whose origin coordinate lies strictly
inside the slab leaves the running interval untouched (aabb.rs variant):
the slab times are `-inf` and `+inf` and neither comparison fires. -/
theorem slabAxisA_zero_inside (axI : Interval) (o : ℚ) (st : EQx × EQx)
    (h1 : axI.start < o) (h2 : o < axI.stop) :
    slabAxisA axI o 0 st = st := by
  obtain ⟨s, e⟩ := st
  simp only [slabAxisA, EQx.inv1_zero,
    EQx.mulFin_neg_pinf (axI.start - o) (by linarith),
    EQx.mulFin_pos_pinf (axI.stop - o) (by linarith)]
  cases s <;> cases e <;> rfl

/-- Same for the bvh.rs variant. -/
theorem slabAxisB_zero_inside (axI : Interval) (o : ℚ) (st : EQx × EQx)
    (h1 : axI.start < o) (h2 : o < axI.stop) :
    slabAxisB axI o 0 st = st := by
  obtain ⟨s, e⟩ := st
  simp only [slabAxisB, EQx.inv1_zero,
    EQx.mulFin_neg_pinf (axI.start - o) (by linarith),
    EQx.mulFin_pos_pinf (axI.stop - o) (by linarith)]
  cases s <;> cases e <;> rfl

/-- A degenerate axis with the origin beyond the slab's high side: both
slab times are `-inf` and the running end collapses (aabb.rs variant). -/
theorem slabAxisA_zero_high (axI : Interval) (o a b : ℚ)
    (hbox : axI.start ≤ axI.stop) (ho : axI.stop < o) :
    slabAxisA axI o 0 (EQx.fin a, EQx.fin b) = (EQx.fin a, EQx.ninf) := by
  simp only [slabAxisA, EQx.inv1_zero,
    EQx.mulFin_neg_pinf (axI.start - o) (by linarith),
    EQx.mulFin_neg_pinf (axI.stop - o) (by linarith)]
  rfl

theorem slabAxisB_zero_high (axI : Interval) (o a b : ℚ)
    (hbox : axI.start ≤ axI.stop) (ho : axI.stop < o) :
    slabAxisB axI o 0 (EQx.fin a, EQx.fin b) = (EQx.fin a, EQx.ninf) := by
  simp only [slabAxisB, EQx.inv1_zero,
    EQx.mulFin_neg_pinf (axI.start - o) (by linarith),
    EQx.mulFin_neg_pinf (axI.stop - o) (by linarith)]
  rfl

/-- A degenerate axis with the origin below the slab's low side: both slab
times are `+inf` and the running start jumps to `+inf` (aabb.rs variant). -/
theorem slabAxisA_zero_low (axI : Interval) (o a b : ℚ)
    (hbox : axI.start ≤ axI.stop) (ho : o < axI.start) :
    slabAxisA axI o 0 (EQx.fin a, EQx.fin b) = (EQx.pinf, EQx.fin b) := by
  simp only [slabAxisA, EQx.inv1_zero,
    EQx.mulFin_pos_pinf (axI.start - o) (by linarith),
    EQx.mulFin_pos_pinf (axI.stop - o) (by linarith)]
  rfl

theorem slabAxisB_zero_low (axI : Interval) (o a b : ℚ)
    (hbox : axI.start ≤ axI.stop) (ho : o < axI.start) :
    slabAxisB axI o 0 (EQx.fin a, EQx.fin b) = (EQx.pinf, EQx.fin b) := by
  simp only [slabAxisB, EQx.inv1_zero,
    EQx.mulFin_pos_pinf (axI.start - o) (by linarith),
    EQx.mulFin_pos_pinf (axI.stop - o) (by linarith)]
  rfl

/-- On a non-degenerate axis the slab step is the familiar clip by the
ordered slab times (aabb.rs variant). -/
theorem slabAxisA_move (axI : Interval) (o d a b : ℚ) (hd : d ≠ 0) :
    slabAxisA axI o d (EQx.fin a, EQx.fin b) =
      (EQx.fin (max a (min ((axI.start - o) * (1 / d)) ((axI.stop - o) * (1 / d)))),
       EQx.fin (min b (max ((axI.start - o) * (1 / d)) ((axI.stop - o) * (1 / d))))) := by
  have h0 : EQx.mulFin (axI.start - o) (EQx.inv1 d) =
      EQx.fin ((axI.start - o) * (1 / d)) := by
    rw [EQx.inv1_ne d hd]
    rfl
  have h1 : EQx.mulFin (axI.stop - o) (EQx.inv1 d) =
      EQx.fin ((axI.stop - o) * (1 / d)) := by
    rw [EQx.inv1_ne d hd]
    rfl
  simp only [slabAxisA, h0, h1]
  rcases lt_or_ge ((axI.stop - o) * (1 / d)) ((axI.start - o) * (1 / d)) with hsw | hsw
  · have hc : EQx.lt (EQx.fin ((axI.stop - o) * (1 / d)))
        (EQx.fin ((axI.start - o) * (1 / d))) = true := by
      rw [EQx.lt_fin_fin]
      exact decide_eq_true hsw
    rw [if_pos hc, min_eq_right hsw.le, max_eq_left hsw.le]
    dsimp only
    rw [finIf_max, finIf_min]
  · have hc : EQx.lt (EQx.fin ((axI.stop - o) * (1 / d)))
        (EQx.fin ((axI.start - o) * (1 / d))) = false := by
      rw [EQx.lt_fin_fin]
      exact decide_eq_false (not_lt.2 hsw)
    have hcne : ¬ (EQx.lt (EQx.fin ((axI.stop - o) * (1 / d)))
        (EQx.fin ((axI.start - o) * (1 / d))) = true) := by
      rw [hc]
      simp
    rw [if_neg hcne, min_eq_left hsw, max_eq_right hsw]
    dsimp only
    rw [finIf_max, finIf_min]

/-- Same clip for the bvh.rs variant. -/
theorem slabAxisB_move (axI : Interval) (o d a b : ℚ) (hd : d ≠ 0) :
    slabAxisB axI o d (EQx.fin a, EQx.fin b) =
      (EQx.fin (max a (min ((axI.start - o) * (1 / d)) ((axI.stop - o) * (1 / d)))),
       EQx.fin (min b (max ((axI.start - o) * (1 / d)) ((axI.stop - o) * (1 / d))))) := by
  have h0 : EQx.mulFin (axI.start - o) (EQx.inv1 d) =
      EQx.fin ((axI.start - o) * (1 / d)) := by
    rw [EQx.inv1_ne d hd]
    rfl
  have h1 : EQx.mulFin (axI.stop - o) (EQx.inv1 d) =
      EQx.fin ((axI.stop - o) * (1 / d)) := by
    rw [EQx.inv1_ne d hd]
    rfl
  simp only [slabAxisB, h0, h1]
  rcases lt_or_ge ((axI.start - o) * (1 / d)) ((axI.stop - o) * (1 / d)) with hsw | hsw
  · have hc : EQx.lt (EQx.fin ((axI.start - o) * (1 / d)))
        (EQx.fin ((axI.stop - o) * (1 / d))) = true := by
      rw [EQx.lt_fin_fin]
      exact decide_eq_true hsw
    rw [if_pos hc, min_eq_left hsw.le, max_eq_right hsw.le]
    rw [finIf_max, finIf_min]
  · have hc : EQx.lt (EQx.fin ((axI.start - o) * (1 / d)))
        (EQx.fin ((axI.stop - o) * (1 / d))) = false := by
      rw [EQx.lt_fin_fin]
      exact decide_eq_false (not_lt.2 hsw)
    have hcne : ¬ (EQx.lt (EQx.fin ((axI.start - o) * (1 / d)))
        (EQx.fin ((axI.stop - o) * (1 / d))) = true) := by
      rw [hc]
      simp
    rw [if_neg hcne, min_eq_right hsw, max_eq_left hsw]
    rw [finIf_max, finIf_min]

/-- Every slab step from a finite state either makes the early-exit check
fire or yields a finite state with a larger start and smaller end
(aabb.rs variant). -/
theorem slabAxisA_mono (axI : Interval) (o d a b : ℚ) :
    EQx.le (slabAxisA axI o d (EQx.fin a, EQx.fin b)).2
      (slabAxisA axI o d (EQx.fin a, EQx.fin b)).1 = true ∨
    ∃ a2 b2 : ℚ, slabAxisA axI o d (EQx.fin a, EQx.fin b) = (EQx.fin a2, EQx.fin b2) ∧
      a ≤ a2 ∧ b2 ≤ b := by
  by_cases hd : d = 0
  · subst hd
    rcases lt_trichotomy (axI.start - o) 0 with h1 | h1 | h1 <;>
      rcases lt_trichotomy (axI.stop - o) 0 with h2 | h2 | h2
    · left
      simp only [slabAxisA, EQx.inv1_zero, EQx.mulFin_neg_pinf _ h1,
        EQx.mulFin_neg_pinf _ h2]
      rfl
    · right
      refine ⟨a, b, ?_, le_refl a, le_refl b⟩
      simp only [slabAxisA, EQx.inv1_zero, EQx.mulFin_neg_pinf _ h1, h2,
        EQx.mulFin_zero_pinf]
      rfl
    · right
      refine ⟨a, b, ?_, le_refl a, le_refl b⟩
      simp only [slabAxisA, EQx.inv1_zero, EQx.mulFin_neg_pinf _ h1,
        EQx.mulFin_pos_pinf _ h2]
      rfl
    · left
      simp only [slabAxisA, EQx.inv1_zero, h1, EQx.mulFin_zero_pinf,
        EQx.mulFin_neg_pinf _ h2]
      rfl
    · right
      refine ⟨a, b, ?_, le_refl a, le_refl b⟩
      simp only [slabAxisA, EQx.inv1_zero, h1, h2, EQx.mulFin_zero_pinf]
      rfl
    · right
      refine ⟨a, b, ?_, le_refl a, le_refl b⟩
      simp only [slabAxisA, EQx.inv1_zero, h1, EQx.mulFin_zero_pinf,
        EQx.mulFin_pos_pinf _ h2]
      rfl
    · right
      refine ⟨a, b, ?_, le_refl a, le_refl b⟩
      simp only [slabAxisA, EQx.inv1_zero, EQx.mulFin_pos_pinf _ h1,
        EQx.mulFin_neg_pinf _ h2]
      rfl
    · left
      simp only [slabAxisA, EQx.inv1_zero, EQx.mulFin_pos_pinf _ h1, h2,
        EQx.mulFin_zero_pinf]
      rfl
    · left
      simp only [slabAxisA, EQx.inv1_zero, EQx.mulFin_pos_pinf _ h1,
        EQx.mulFin_pos_pinf _ h2]
      rfl
  · right
    exact ⟨_, _, slabAxisA_move axI o d a b hd, le_max_left _ _, min_le_left _ _⟩

/-- Same for the bvh.rs variant. -/
theorem slabAxisB_mono (axI : Interval) (o d a b : ℚ) :
    EQx.le (slabAxisB axI o d (EQx.fin a, EQx.fin b)).2
      (slabAxisB axI o d (EQx.fin a, EQx.fin b)).1 = true ∨
    ∃ a2 b2 : ℚ, slabAxisB axI o d (EQx.fin a, EQx.fin b) = (EQx.fin a2, EQx.fin b2) ∧
      a ≤ a2 ∧ b2 ≤ b := by
  by_cases hd : d = 0
  · subst hd
    rcases lt_trichotomy (axI.start - o) 0 with h1 | h1 | h1 <;>
      rcases lt_trichotomy (axI.stop - o) 0 with h2 | h2 | h2
    · left
      simp only [slabAxisB, EQx.inv1_zero, EQx.mulFin_neg_pinf _ h1,
        EQx.mulFin_neg_pinf _ h2]
      rfl
    · left
      simp only [slabAxisB, EQx.inv1_zero, EQx.mulFin_neg_pinf _ h1, h2,
        EQx.mulFin_zero_pinf]
      rfl
    · right
      refine ⟨a, b, ?_, le_refl a, le_refl b⟩
      simp only [slabAxisB, EQx.inv1_zero, EQx.mulFin_neg_pinf _ h1,
        EQx.mulFin_pos_pinf _ h2]
      rfl
    · right
      refine ⟨a, b, ?_, le_refl a, le_refl b⟩
      simp only [slabAxisB, EQx.inv1_zero, h1, EQx.mulFin_zero_pinf,
        EQx.mulFin_neg_pinf _ h2]
      rfl
    · right
      refine ⟨a, b, ?_, le_refl a, le_refl b⟩
      simp only [slabAxisB, EQx.inv1_zero, h1, h2, EQx.mulFin_zero_pinf]
      rfl
    · left
      simp only [slabAxisB, EQx.inv1_zero, h1, EQx.mulFin_zero_pinf,
        EQx.mulFin_pos_pinf _ h2]
      rfl
    · right
      refine ⟨a, b, ?_, le_refl a, le_refl b⟩
      simp only [slabAxisB, EQx.inv1_zero, EQx.mulFin_pos_pinf _ h1,
        EQx.mulFin_neg_pinf _ h2]
      rfl
    · right
      refine ⟨a, b, ?_, le_refl a, le_refl b⟩
      simp only [slabAxisB, EQx.inv1_zero, EQx.mulFin_pos_pinf _ h1, h2,
        EQx.mulFin_zero_pinf]
      rfl
    · left
      simp only [slabAxisB, EQx.inv1_zero, EQx.mulFin_pos_pinf _ h1,
        EQx.mulFin_pos_pinf _ h2]
      rfl
  · right
    exact ⟨_, _, slabAxisB_move axI o d a b hd, le_max_left _ _, min_le_left _ _⟩

/-- On an axis where the ray points away from a non-reversed slab and the
running start is non-negative, the step makes the early-exit check fire
(aabb.rs variant). -/
theorem slabAxisA_away (axI : Interval) (o d a b : ℚ)
    (hbox : axI.start ≤ axI.stop) (ha0 : 0 ≤ a)
    (haway : (axI.stop < o ∧ 0 ≤ d) ∨ (o < axI.start ∧ d ≤ 0)) :
    EQx.le (slabAxisA axI o d (EQx.fin a, EQx.fin b)).2
      (slabAxisA axI o d (EQx.fin a, EQx.fin b)).1 = true := by
  rcases haway with ⟨ho, hd⟩ | ⟨ho, hd⟩
  · rcases eq_or_lt_of_le hd with hd0 | hd0
    · rw [← hd0, slabAxisA_zero_high axI o a b hbox ho]
      rfl
    · rw [slabAxisA_move axI o d a b (ne_of_gt hd0)]
      have hinv : 0 < 1 / d := by positivity
      have hu : (axI.start - o) * (1 / d) < 0 :=
        mul_neg_of_neg_of_pos (by linarith) hinv
      have hw : (axI.stop - o) * (1 / d) < 0 :=
        mul_neg_of_neg_of_pos (by linarith) hinv
      simp only [EQx.le_fin_fin, decide_eq_true_eq]
      have h1 := min_le_right b (max ((axI.start - o) * (1 / d)) ((axI.stop - o) * (1 / d)))
      have h2 := le_max_left a (min ((axI.start - o) * (1 / d)) ((axI.stop - o) * (1 / d)))
      have h3 : max ((axI.start - o) * (1 / d)) ((axI.stop - o) * (1 / d)) < 0 :=
        max_lt hu hw
      linarith
  · rcases eq_or_lt_of_le hd with hd0 | hd0
    · rw [hd0, slabAxisA_zero_low axI o a b hbox ho]
      rfl
    · rw [slabAxisA_move axI o d a b (ne_of_lt hd0)]
      have hinv : 1 / d < 0 := one_div_neg.mpr hd0
      have hu : (axI.start - o) * (1 / d) < 0 :=
        mul_neg_of_pos_of_neg (by linarith) hinv
      have hw : (axI.stop - o) * (1 / d) < 0 :=
        mul_neg_of_pos_of_neg (by linarith) hinv
      simp only [EQx.le_fin_fin, decide_eq_true_eq]
      have h1 := min_le_right b (max ((axI.start - o) * (1 / d)) ((axI.stop - o) * (1 / d)))
      have h2 := le_max_left a (min ((axI.start - o) * (1 / d)) ((axI.stop - o) * (1 / d)))
      have h3 : max ((axI.start - o) * (1 / d)) ((axI.stop - o) * (1 / d)) < 0 :=
        max_lt hu hw
      linarith

/-- Same for the bvh.rs variant. -/
theorem slabAxisB_away (axI : Interval) (o d a b : ℚ)
    (hbox : axI.start ≤ axI.stop) (ha0 : 0 ≤ a)
    (haway : (axI.stop < o ∧ 0 ≤ d) ∨ (o < axI.start ∧ d ≤ 0)) :
    EQx.le (slabAxisB axI o d (EQx.fin a, EQx.fin b)).2
      (slabAxisB axI o d (EQx.fin a, EQx.fin b)).1 = true := by
  rcases haway with ⟨ho, hd⟩ | ⟨ho, hd⟩
  · rcases eq_or_lt_of_le hd with hd0 | hd0
    · rw [← hd0, slabAxisB_zero_high axI o a b hbox ho]
      rfl
    · rw [slabAxisB_move axI o d a b (ne_of_gt hd0)]
      have hinv : 0 < 1 / d := by positivity
      have hu : (axI.start - o) * (1 / d) < 0 :=
        mul_neg_of_neg_of_pos (by linarith) hinv
      have hw : (axI.stop - o) * (1 / d) < 0 :=
        mul_neg_of_neg_of_pos (by linarith) hinv
      simp only [EQx.le_fin_fin, decide_eq_true_eq]
      have h1 := min_le_right b (max ((axI.start - o) * (1 / d)) ((axI.stop - o) * (1 / d)))
      have h2 := le_max_left a (min ((axI.start - o) * (1 / d)) ((axI.stop - o) * (1 / d)))
      have h3 : max ((axI.start - o) * (1 / d)) ((axI.stop - o) * (1 / d)) < 0 :=
        max_lt hu hw
      linarith
  · rcases eq_or_lt_of_le hd with hd0 | hd0
    · rw [hd0, slabAxisB_zero_low axI o a b hbox ho]
      rfl
    · rw [slabAxisB_move axI o d a b (ne_of_lt hd0)]
      have hinv : 1 / d < 0 := one_div_neg.mpr hd0
      have hu : (axI.start - o) * (1 / d) < 0 :=
        mul_neg_of_pos_of_neg (by linarith) hinv
      have hw : (axI.stop - o) * (1 / d) < 0 :=
        mul_neg_of_pos_of_neg (by linarith) hinv
      simp only [EQx.le_fin_fin, decide_eq_true_eq]
      have h1 := min_le_right b (max ((axI.start - o) * (1 / d)) ((axI.stop - o) * (1 / d)))
      have h2 := le_max_left a (min ((axI.start - o) * (1 / d)) ((axI.stop - o) * (1 / d)))
      have h3 : max ((axI.start - o) * (1 / d)) ((axI.stop - o) * (1 / d)) < 0 :=
        max_lt hu hw
      linarith

/-- Bounds for a non-degenerate axis whose ray segment between parameters
`a0` and `T` stays strictly inside the slab: the near slab time is below
`a0` and the far slab time is beyond `T`. -/
theorem slabBounds (axI : Interval) (o d a0 T : ℚ) (hd : d ≠ 0)
    (h0 : axI.start < o + a0 * d) (h0b : o + a0 * d < axI.stop)
    (hT : axI.start < o + T * d) (hTb : o + T * d < axI.stop) :
    min ((axI.start - o) * (1 / d)) ((axI.stop - o) * (1 / d)) < a0 ∧
    T < max ((axI.start - o) * (1 / d)) ((axI.stop - o) * (1 / d)) := by
  rcases hd.lt_or_lt with hneg | hposd
  · have h1d : 1 / d < 0 := one_div_neg.mpr hneg
    have hida : a0 * d * (1 / d) = a0 := by field_simp
    have hidT : T * d * (1 / d) = T := by field_simp
    constructor
    · have hmul := mul_lt_mul_of_neg_right
        (show a0 * d < axI.stop - o by linarith) h1d
      rw [hida] at hmul
      exact lt_of_le_of_lt (min_le_right _ _) hmul
    · have hmul := mul_lt_mul_of_neg_right
        (show axI.start - o < T * d by linarith) h1d
      rw [hidT] at hmul
      exact lt_of_lt_of_le hmul (le_max_left _ _)
  · have h1d : 0 < 1 / d := by positivity
    have hida : a0 * d * (1 / d) = a0 := by field_simp
    have hidT : T * d * (1 / d) = T := by field_simp
    constructor
    · have hmul := mul_lt_mul_of_pos_right
        (show axI.start - o < a0 * d by linarith) h1d
      rw [hida] at hmul
      exact lt_of_le_of_lt (min_le_left _ _) hmul
    · have hmul := mul_lt_mul_of_pos_right
        (show T * d < axI.stop - o by linarith) h1d
      rw [hidT] at hmul
      exact lt_of_lt_of_le hmul (le_max_right _ _)

/-- The non-exit fact for the clipped state produced by the moving axis. -/
theorem clipNoExit (axI : Interval) (o d : ℚ) (ti : Interval)
    (hgap : ti.start < ti.stop) (hpos : 0 < ti.stop) (hd : d ≠ 0)
    (h0 : axI.start < o + (max ti.start 0) * d) (h0b : o + (max ti.start 0) * d < axI.stop)
    (hT : axI.start < o + ti.stop * d) (hTb : o + ti.stop * d < axI.stop) :
    ¬ (EQx.le
      (EQx.fin (min ti.stop (max ((axI.start - o) * (1 / d)) ((axI.stop - o) * (1 / d)))))
      (EQx.fin (max ti.start (min ((axI.start - o) * (1 / d)) ((axI.stop - o) * (1 / d)))))
      = true) := by
  obtain ⟨hlo, hhi⟩ := slabBounds axI o d (max ti.start 0) ti.stop hd h0 h0b hT hTb
  have ha0b : max ti.start 0 ≤ ti.stop := max_le hgap.le hpos.le
  have hslt : max ti.start (min ((axI.start - o) * (1 / d)) ((axI.stop - o) * (1 / d))) <
      min ti.stop (max ((axI.start - o) * (1 / d)) ((axI.stop - o) * (1 / d))) := by
    apply max_lt
    · exact lt_min hgap (by linarith)
    · exact lt_min (by linarith) (by linarith)
  rw [EQx.le_fin_fin, decide_eq_false (not_le.2 hslt)]
  simp

/-- The initial interval does not exit. -/
theorem startNoExit (ti : Interval) (hgap : ti.start < ti.stop) :
    ¬ (EQx.le (EQx.fin ti.stop) (EQx.fin ti.start) = true) := by
  rw [EQx.le_fin_fin, decide_eq_false (not_le.2 hgap)]
  simp

/-- Part (a) of C9 for the aabb.rs slab test: an axis-aligned ray whose
relevant path is strictly enclosed by the box hits. -/
theorem aabbHit_inside_true (bxI byI bzI : Interval) (ray : Ray) (ti : Interval)
    (haxis : ray.direction.y = 0 ∧ ray.direction.z = 0 ∧ ray.direction.x ≠ 0 ∨
      ray.direction.x = 0 ∧ ray.direction.z = 0 ∧ ray.direction.y ≠ 0 ∨
      ray.direction.x = 0 ∧ ray.direction.y = 0 ∧ ray.direction.z ≠ 0)
    (hgap : ti.start < ti.stop) (hpos : 0 < ti.stop)
    (hencl : ∀ t, max ti.start 0 ≤ t → t ≤ ti.stop →
      strictlyInside bxI byI bzI (ray.pointAt t)) :
    Aabb.hit ⟨bxI, byI, bzI⟩ ray ti = true := by
  have ha0b : max ti.start 0 ≤ ti.stop := max_le hgap.le hpos.le
  obtain ⟨⟨hx1, hx2⟩, ⟨hy1, hy2⟩, ⟨hz1, hz2⟩⟩ := hencl (max ti.start 0) (le_refl _) ha0b
  obtain ⟨⟨hX1, hX2⟩, ⟨hY1, hY2⟩, ⟨hZ1, hZ2⟩⟩ := hencl ti.stop ha0b (le_refl _)
  have hptx : ∀ t, (ray.pointAt t).x = ray.origin.x + t * ray.direction.x :=
    fun t => rfl
  have hpty : ∀ t, (ray.pointAt t).y = ray.origin.y + t * ray.direction.y :=
    fun t => rfl
  have hptz : ∀ t, (ray.pointAt t).z = ray.origin.z + t * ray.direction.z :=
    fun t => rfl
  rw [hptx] at hx1 hx2 hX1 hX2
  rw [hpty] at hy1 hy2 hY1 hY2
  rw [hptz] at hz1 hz2 hZ1 hZ2
  rcases haxis with ⟨hdy, hdz, hdx⟩ | ⟨hdx, hdz, hdy⟩ | ⟨hdx, hdy, hdz⟩
  · rw [hdy] at hy1 hy2 hY1 hY2
    rw [hdz] at hz1 hz2 hZ1 hZ2
    simp only [mul_zero, add_zero] at hy1 hy2 hz1 hz2 hY1 hY2 hZ1 hZ2
    have hne := clipNoExit bxI ray.origin.x ray.direction.x ti hgap hpos hdx
      hx1 hx2 hX1 hX2
    simp only [Aabb.hit, hdy, hdz]
    rw [slabAxisA_move bxI ray.origin.x ray.direction.x ti.start ti.stop hdx]
    dsimp only
    rw [if_neg hne, slabAxisA_zero_inside byI ray.origin.y _ hy1 hy2]
    dsimp only
    rw [if_neg hne, slabAxisA_zero_inside bzI ray.origin.z _ hz1 hz2]
    dsimp only
    rw [if_neg hne]
  · rw [hdx] at hx1 hx2 hX1 hX2
    rw [hdz] at hz1 hz2 hZ1 hZ2
    simp only [mul_zero, add_zero] at hx1 hx2 hz1 hz2 hX1 hX2 hZ1 hZ2
    have hne := clipNoExit byI ray.origin.y ray.direction.y ti hgap hpos hdy
      hy1 hy2 hY1 hY2
    simp only [Aabb.hit, hdx, hdz]
    rw [slabAxisA_zero_inside bxI ray.origin.x _ hx1 hx2]
    dsimp only
    rw [if_neg (startNoExit ti hgap),
      slabAxisA_move byI ray.origin.y ray.direction.y ti.start ti.stop hdy]
    dsimp only
    rw [if_neg hne, slabAxisA_zero_inside bzI ray.origin.z _ hz1 hz2]
    dsimp only
    rw [if_neg hne]
  · rw [hdx] at hx1 hx2 hX1 hX2
    rw [hdy] at hy1 hy2 hY1 hY2
    simp only [mul_zero, add_zero] at hx1 hx2 hy1 hy2 hX1 hX2 hY1 hY2
    have hne := clipNoExit bzI ray.origin.z ray.direction.z ti hgap hpos hdz
      hz1 hz2 hZ1 hZ2
    simp only [Aabb.hit, hdx, hdy]
    rw [slabAxisA_zero_inside bxI ray.origin.x _ hx1 hx2]
    dsimp only
    rw [if_neg (startNoExit ti hgap),
      slabAxisA_zero_inside byI ray.origin.y _ hy1 hy2]
    dsimp only
    rw [if_neg (startNoExit ti hgap),
      slabAxisA_move bzI ray.origin.z ray.direction.z ti.start ti.stop hdz]
    dsimp only
    rw [if_neg hne]

/-- Part (a) of C9 for the bvh.rs slab test. -/
theorem bboxHit_inside_true (bxI byI bzI : Interval) (ray : Ray) (ti : Interval)
    (haxis : ray.direction.y = 0 ∧ ray.direction.z = 0 ∧ ray.direction.x ≠ 0 ∨
      ray.direction.x = 0 ∧ ray.direction.z = 0 ∧ ray.direction.y ≠ 0 ∨
      ray.direction.x = 0 ∧ ray.direction.y = 0 ∧ ray.direction.z ≠ 0)
    (hgap : ti.start < ti.stop) (hpos : 0 < ti.stop)
    (hencl : ∀ t, max ti.start 0 ≤ t → t ≤ ti.stop →
      strictlyInside bxI byI bzI (ray.pointAt t)) :
    BBox.hit ⟨bxI, byI, bzI⟩ ray ti = true := by
  have ha0b : max ti.start 0 ≤ ti.stop := max_le hgap.le hpos.le
  obtain ⟨⟨hx1, hx2⟩, ⟨hy1, hy2⟩, ⟨hz1, hz2⟩⟩ := hencl (max ti.start 0) (le_refl _) ha0b
  obtain ⟨⟨hX1, hX2⟩, ⟨hY1, hY2⟩, ⟨hZ1, hZ2⟩⟩ := hencl ti.stop ha0b (le_refl _)
  have hptx : ∀ t, (ray.pointAt t).x = ray.origin.x + t * ray.direction.x :=
    fun t => rfl
  have hpty : ∀ t, (ray.pointAt t).y = ray.origin.y + t * ray.direction.y :=
    fun t => rfl
  have hptz : ∀ t, (ray.pointAt t).z = ray.origin.z + t * ray.direction.z :=
    fun t => rfl
  rw [hptx] at hx1 hx2 hX1 hX2
  rw [hpty] at hy1 hy2 hY1 hY2
  rw [hptz] at hz1 hz2 hZ1 hZ2
  rcases haxis with ⟨hdy, hdz, hdx⟩ | ⟨hdx, hdz, hdy⟩ | ⟨hdx, hdy, hdz⟩
  · rw [hdy] at hy1 hy2 hY1 hY2
    rw [hdz] at hz1 hz2 hZ1 hZ2
    simp only [mul_zero, add_zero] at hy1 hy2 hz1 hz2 hY1 hY2 hZ1 hZ2
    have hne := clipNoExit bxI ray.origin.x ray.direction.x ti hgap hpos hdx
      hx1 hx2 hX1 hX2
    simp only [BBox.hit, hdy, hdz]
    rw [slabAxisB_move bxI ray.origin.x ray.direction.x ti.start ti.stop hdx]
    dsimp only
    rw [if_neg hne, slabAxisB_zero_inside byI ray.origin.y _ hy1 hy2]
    dsimp only
    rw [if_neg hne, slabAxisB_zero_inside bzI ray.origin.z _ hz1 hz2]
    dsimp only
    rw [if_neg hne]
  · rw [hdx] at hx1 hx2 hX1 hX2
    rw [hdz] at hz1 hz2 hZ1 hZ2
    simp only [mul_zero, add_zero] at hx1 hx2 hz1 hz2 hX1 hX2 hZ1 hZ2
    have hne := clipNoExit byI ray.origin.y ray.direction.y ti hgap hpos hdy
      hy1 hy2 hY1 hY2
    simp only [BBox.hit, hdx, hdz]
    rw [slabAxisB_zero_inside bxI ray.origin.x _ hx1 hx2]
    dsimp only
    rw [if_neg (startNoExit ti hgap),
      slabAxisB_move byI ray.origin.y ray.direction.y ti.start ti.stop hdy]
    dsimp only
    rw [if_neg hne, slabAxisB_zero_inside bzI ray.origin.z _ hz1 hz2]
    dsimp only
    rw [if_neg hne]
  · rw [hdx] at hx1 hx2 hX1 hX2
    rw [hdy] at hy1 hy2 hY1 hY2
    simp only [mul_zero, add_zero] at hx1 hx2 hy1 hy2 hX1 hX2 hY1 hY2
    have hne := clipNoExit bzI ray.origin.z ray.direction.z ti hgap hpos hdz
      hz1 hz2 hZ1 hZ2
    simp only [BBox.hit, hdx, hdy]
    rw [slabAxisB_zero_inside bxI ray.origin.x _ hx1 hx2]
    dsimp only
    rw [if_neg (startNoExit ti hgap),
      slabAxisB_zero_inside byI ray.origin.y _ hy1 hy2]
    dsimp only
    rw [if_neg (startNoExit ti hgap),
      slabAxisB_move bzI ray.origin.z ray.direction.z ti.start ti.stop hdz]
    dsimp only
    rw [if_neg hne]

/-- Part (b) of C9 for the aabb.rs slab test: a ray pointing away from
(or parallel and outside of) a nonempty box on some axis misses. -/
theorem aabbHit_away_false (bxI byI bzI : Interval) (ray : Ray) (ti : Interval)
    (hstart : 0 ≤ ti.start)
    (hbx : bxI.start ≤ bxI.stop) (hby : byI.start ≤ byI.stop)
    (hbz : bzI.start ≤ bzI.stop)
    (haway : (bxI.stop < ray.origin.x ∧ 0 ≤ ray.direction.x) ∨
      (ray.origin.x < bxI.start ∧ ray.direction.x ≤ 0) ∨
      (byI.stop < ray.origin.y ∧ 0 ≤ ray.direction.y) ∨
      (ray.origin.y < byI.start ∧ ray.direction.y ≤ 0) ∨
      (bzI.stop < ray.origin.z ∧ 0 ≤ ray.direction.z) ∨
      (ray.origin.z < bzI.start ∧ ray.direction.z ≤ 0)) :
    Aabb.hit ⟨bxI, byI, bzI⟩ ray ti = false := by
  rcases haway with h | h | h | h | h | h
  · have hex := slabAxisA_away bxI ray.origin.x ray.direction.x ti.start ti.stop
      hbx hstart (Or.inl h)
    simp only [Aabb.hit]
    rw [if_pos hex]
  · have hex := slabAxisA_away bxI ray.origin.x ray.direction.x ti.start ti.stop
      hbx hstart (Or.inr h)
    simp only [Aabb.hit]
    rw [if_pos hex]
  · rcases slabAxisA_mono bxI ray.origin.x ray.direction.x ti.start ti.stop with
      hex1 | ⟨a2, b2, heq, ha2, hb2⟩
    · simp only [Aabb.hit]
      rw [if_pos hex1]
    · simp only [Aabb.hit]
      rw [heq]
      dsimp only
      by_cases hchk : EQx.le (EQx.fin b2) (EQx.fin a2) = true
      · rw [if_pos hchk]
      · rw [if_neg hchk]
        have hex2 := slabAxisA_away byI ray.origin.y ray.direction.y a2 b2
          hby (le_trans hstart ha2) (Or.inl h)
        rw [if_pos hex2]
  · rcases slabAxisA_mono bxI ray.origin.x ray.direction.x ti.start ti.stop with
      hex1 | ⟨a2, b2, heq, ha2, hb2⟩
    · simp only [Aabb.hit]
      rw [if_pos hex1]
    · simp only [Aabb.hit]
      rw [heq]
      dsimp only
      by_cases hchk : EQx.le (EQx.fin b2) (EQx.fin a2) = true
      · rw [if_pos hchk]
      · rw [if_neg hchk]
        have hex2 := slabAxisA_away byI ray.origin.y ray.direction.y a2 b2
          hby (le_trans hstart ha2) (Or.inr h)
        rw [if_pos hex2]
  · rcases slabAxisA_mono bxI ray.origin.x ray.direction.x ti.start ti.stop with
      hex1 | ⟨a2, b2, heq, ha2, hb2⟩
    · simp only [Aabb.hit]
      rw [if_pos hex1]
    · rcases slabAxisA_mono byI ray.origin.y ray.direction.y a2 b2 with
        hex2 | ⟨a3, b3, heq2, ha3, hb3⟩
      · simp only [Aabb.hit]
        rw [heq]
        dsimp only
        by_cases hchk : EQx.le (EQx.fin b2) (EQx.fin a2) = true
        · rw [if_pos hchk]
        · rw [if_neg hchk, if_pos hex2]
      · simp only [Aabb.hit]
        rw [heq]
        dsimp only
        by_cases hchk : EQx.le (EQx.fin b2) (EQx.fin a2) = true
        · rw [if_pos hchk]
        · rw [if_neg hchk, heq2]
          dsimp only
          by_cases hchk2 : EQx.le (EQx.fin b3) (EQx.fin a3) = true
          · rw [if_pos hchk2]
          · rw [if_neg hchk2]
            have hex3 := slabAxisA_away bzI ray.origin.z ray.direction.z a3 b3
              hbz (le_trans (le_trans hstart ha2) ha3) (Or.inl h)
            rw [if_pos hex3]
  · rcases slabAxisA_mono bxI ray.origin.x ray.direction.x ti.start ti.stop with
      hex1 | ⟨a2, b2, heq, ha2, hb2⟩
    · simp only [Aabb.hit]
      rw [if_pos hex1]
    · rcases slabAxisA_mono byI ray.origin.y ray.direction.y a2 b2 with
        hex2 | ⟨a3, b3, heq2, ha3, hb3⟩
      · simp only [Aabb.hit]
        rw [heq]
        dsimp only
        by_cases hchk : EQx.le (EQx.fin b2) (EQx.fin a2) = true
        · rw [if_pos hchk]
        · rw [if_neg hchk, if_pos hex2]
      · simp only [Aabb.hit]
        rw [heq]
        dsimp only
        by_cases hchk : EQx.le (EQx.fin b2) (EQx.fin a2) = true
        · rw [if_pos hchk]
        · rw [if_neg hchk, heq2]
          dsimp only
          by_cases hchk2 : EQx.le (EQx.fin b3) (EQx.fin a3) = true
          · rw [if_pos hchk2]
          · rw [if_neg hchk2]
            have hex3 := slabAxisA_away bzI ray.origin.z ray.direction.z a3 b3
              hbz (le_trans (le_trans hstart ha2) ha3) (Or.inr h)
            rw [if_pos hex3]

/-- Part (b) of C9 for the bvh.rs slab test. -/
theorem bboxHit_away_false (bxI byI bzI : Interval) (ray : Ray) (ti : Interval)
    (hstart : 0 ≤ ti.start)
    (hbx : bxI.start ≤ bxI.stop) (hby : byI.start ≤ byI.stop)
    (hbz : bzI.start ≤ bzI.stop)
    (haway : (bxI.stop < ray.origin.x ∧ 0 ≤ ray.direction.x) ∨
      (ray.origin.x < bxI.start ∧ ray.direction.x ≤ 0) ∨
      (byI.stop < ray.origin.y ∧ 0 ≤ ray.direction.y) ∨
      (ray.origin.y < byI.start ∧ ray.direction.y ≤ 0) ∨
      (bzI.stop < ray.origin.z ∧ 0 ≤ ray.direction.z) ∨
      (ray.origin.z < bzI.start ∧ ray.direction.z ≤ 0)) :
    BBox.hit ⟨bxI, byI, bzI⟩ ray ti = false := by
  rcases haway with h | h | h | h | h | h
  · have hex := slabAxisB_away bxI ray.origin.x ray.direction.x ti.start ti.stop
      hbx hstart (Or.inl h)
    simp only [BBox.hit]
    rw [if_pos hex]
  · have hex := slabAxisB_away bxI ray.origin.x ray.direction.x ti.start ti.stop
      hbx hstart (Or.inr h)
    simp only [BBox.hit]
    rw [if_pos hex]
  · rcases slabAxisB_mono bxI ray.origin.x ray.direction.x ti.start ti.stop with
      hex1 | ⟨a2, b2, heq, ha2, hb2⟩
    · simp only [BBox.hit]
      rw [if_pos hex1]
    · simp only [BBox.hit]
      rw [heq]
      dsimp only
      by_cases hchk : EQx.le (EQx.fin b2) (EQx.fin a2) = true
      · rw [if_pos hchk]
      · rw [if_neg hchk]
        have hex2 := slabAxisB_away byI ray.origin.y ray.direction.y a2 b2
          hby (le_trans hstart ha2) (Or.inl h)
        rw [if_pos hex2]
  · rcases slabAxisB_mono bxI ray.origin.x ray.direction.x ti.start ti.stop with
      hex1 | ⟨a2, b2, heq, ha2, hb2⟩
    · simp only [BBox.hit]
      rw [if_pos hex1]
    · simp only [BBox.hit]
      rw [heq]
      dsimp only
      by_cases hchk : EQx.le (EQx.fin b2) (EQx.fin a2) = true
      · rw [if_pos hchk]
      · rw [if_neg hchk]
        have hex2 := slabAxisB_away byI ray.origin.y ray.direction.y a2 b2
          hby (le_trans hstart ha2) (Or.inr h)
        rw [if_pos hex2]
  · rcases slabAxisB_mono bxI ray.origin.x ray.direction.x ti.start ti.stop with
      hex1 | ⟨a2, b2, heq, ha2, hb2⟩
    · simp only [BBox.hit]
      rw [if_pos hex1]
    · rcases slabAxisB_mono byI ray.origin.y ray.direction.y a2 b2 with
        hex2 | ⟨a3, b3, heq2, ha3, hb3⟩
      · simp only [BBox.hit]
        rw [heq]
        dsimp only
        by_cases hchk : EQx.le (EQx.fin b2) (EQx.fin a2) = true
        · rw [if_pos hchk]
        · rw [if_neg hchk, if_pos hex2]
      · simp only [BBox.hit]
        rw [heq]
        dsimp only
        by_cases hchk : EQx.le (EQx.fin b2) (EQx.fin a2) = true
        · rw [if_pos hchk]
        · rw [if_neg hchk, heq2]
          dsimp only
          by_cases hchk2 : EQx.le (EQx.fin b3) (EQx.fin a3) = true
          · rw [if_pos hchk2]
          · rw [if_neg hchk2]
            have hex3 := slabAxisB_away bzI ray.origin.z ray.direction.z a3 b3
              hbz (le_trans (le_trans hstart ha2) ha3) (Or.inl h)
            rw [if_pos hex3]
  · rcases slabAxisB_mono bxI ray.origin.x ray.direction.x ti.start ti.stop with
      hex1 | ⟨a2, b2, heq, ha2, hb2⟩
    · simp only [BBox.hit]
      rw [if_pos hex1]
    · rcases slabAxisB_mono byI ray.origin.y ray.direction.y a2 b2 with
        hex2 | ⟨a3, b3, heq2, ha3, hb3⟩
      · simp only [BBox.hit]
        rw [heq]
        dsimp only
        by_cases hchk : EQx.le (EQx.fin b2) (EQx.fin a2) = true
        · rw [if_pos hchk]
        · rw [if_neg hchk, if_pos hex2]
      · simp only [BBox.hit]
        rw [heq]
        dsimp only
        by_cases hchk : EQx.le (EQx.fin b2) (EQx.fin a2) = true
        · rw [if_pos hchk]
        · rw [if_neg hchk, heq2]
          dsimp only
          by_cases hchk2 : EQx.le (EQx.fin b3) (EQx.fin a3) = true
          · rw [if_pos hchk2]
          · rw [if_neg hchk2]
            have hex3 := slabAxisB_away bzI ray.origin.z ray.direction.z a3 b3
              hbz (le_trans (le_trans hstart ha2) ha3) (Or.inr h)
            rw [if_pos hex3]

/-- C9: the slab tests of both `Aabb::hit` (src/aabb.rs) and
`AxisAlignedBoundingBox::hit` (src/bvh.rs) are correct without
special-casing zero direction components, the IEEE-754 infinities from the
division propagating correctly through the comparison logic.  Part (a): an
axis-aligned ray (two direction components exactly 0, the third nonzero)
whose path over the forward part of a query interval overlapping `[0, ∞)`
is strictly enclosed by the box hits.  Part (b): a ray pointing away from
(or degenerate-parallel and outside of) a nonempty box on some axis, with a
nonnegative query start, misses. -/
theorem slab_test_degenerate_correct (bxI byI bzI : Interval) (ray : Ray)
    (ti : Interval) :
    ((ray.direction.y = 0 ∧ ray.direction.z = 0 ∧ ray.direction.x ≠ 0 ∨
        ray.direction.x = 0 ∧ ray.direction.z = 0 ∧ ray.direction.y ≠ 0 ∨
        ray.direction.x = 0 ∧ ray.direction.y = 0 ∧ ray.direction.z ≠ 0) →
      ti.start < ti.stop → 0 < ti.stop →
      (∀ t, max ti.start 0 ≤ t → t ≤ ti.stop →
        strictlyInside bxI byI bzI (ray.pointAt t)) →
      Aabb.hit ⟨bxI, byI, bzI⟩ ray ti = true ∧
        BBox.hit ⟨bxI, byI, bzI⟩ ray ti = true) ∧
    (0 ≤ ti.start → bxI.start ≤ bxI.stop → byI.start ≤ byI.stop →
      bzI.start ≤ bzI.stop →
      ((bxI.stop < ray.origin.x ∧ 0 ≤ ray.direction.x) ∨
        (ray.origin.x < bxI.start ∧ ray.direction.x ≤ 0) ∨
        (byI.stop < ray.origin.y ∧ 0 ≤ ray.direction.y) ∨
        (ray.origin.y < byI.start ∧ ray.direction.y ≤ 0) ∨
        (bzI.stop < ray.origin.z ∧ 0 ≤ ray.direction.z) ∨
        (ray.origin.z < bzI.start ∧ ray.direction.z ≤ 0)) →
      Aabb.hit ⟨bxI, byI, bzI⟩ ray ti = false ∧
        BBox.hit ⟨bxI, byI, bzI⟩ ray ti = false) :=
  ⟨fun hax hgap hpos hencl =>
    ⟨aabbHit_inside_true bxI byI bzI ray ti hax hgap hpos hencl,
     bboxHit_inside_true bxI byI bzI ray ti hax hgap hpos hencl⟩,
   fun hs hbx hby hbz ha =>
    ⟨aabbHit_away_false bxI byI bzI ray ti hs hbx hby hbz ha,
     bboxHit_away_false bxI byI bzI ray ti hs hbx hby hbz ha⟩⟩

/-- Witness for C9 on the unit box: the x-aligned ray from (1/2,1/2,1/2)
with interval (-1,1/4) hits, the x-aligned ray from (2,1/2,1/2) pointing
in +x with interval (0,100) misses — in both slab-test variants. -/
theorem slab_test_degenerate_correct_witness :
    (Aabb.hit ⟨⟨0, 1⟩, ⟨0, 1⟩, ⟨0, 1⟩⟩
        ⟨⟨1/2, 1/2, 1/2⟩, ⟨1, 0, 0⟩, 0⟩ ⟨-1, 1/4⟩ = true ∧
      BBox.hit ⟨⟨0, 1⟩, ⟨0, 1⟩, ⟨0, 1⟩⟩
        ⟨⟨1/2, 1/2, 1/2⟩, ⟨1, 0, 0⟩, 0⟩ ⟨-1, 1/4⟩ = true) ∧
    (Aabb.hit ⟨⟨0, 1⟩, ⟨0, 1⟩, ⟨0, 1⟩⟩
        ⟨⟨2, 1/2, 1/2⟩, ⟨1, 0, 0⟩, 0⟩ ⟨0, 100⟩ = false ∧
      BBox.hit ⟨⟨0, 1⟩, ⟨0, 1⟩, ⟨0, 1⟩⟩
        ⟨⟨2, 1/2, 1/2⟩, ⟨1, 0, 0⟩, 0⟩ ⟨0, 100⟩ = false) :=
  ⟨(slab_test_degenerate_correct ⟨0, 1⟩ ⟨0, 1⟩ ⟨0, 1⟩
      ⟨⟨1/2, 1/2, 1/2⟩, ⟨1, 0, 0⟩, 0⟩ ⟨-1, 1/4⟩).1
    (Or.inl ⟨rfl, rfl, by norm_num⟩)
    (by norm_num) (by norm_num)
    (fun t h1 h2 => by
      have h0 : (0 : ℚ) ≤ t := le_trans (le_max_right _ _) h1
      have h2q : t ≤ (1 : ℚ) / 4 := h2
      exact ⟨⟨show (0 : ℚ) < 1/2 + t * 1 by linarith,
          show (1 : ℚ)/2 + t * 1 < 1 by linarith⟩,
        ⟨show (0 : ℚ) < 1/2 + t * 0 by norm_num,
          show (1 : ℚ)/2 + t * 0 < 1 by norm_num⟩,
        ⟨show (0 : ℚ) < 1/2 + t * 0 by norm_num,
          show (1 : ℚ)/2 + t * 0 < 1 by norm_num⟩⟩),
   (slab_test_degenerate_correct ⟨0, 1⟩ ⟨0, 1⟩ ⟨0, 1⟩
      ⟨⟨2, 1/2, 1/2⟩, ⟨1, 0, 0⟩, 0⟩ ⟨0, 100⟩).2
    (by norm_num) (by norm_num) (by norm_num) (by norm_num)
    (Or.inl ⟨by norm_num, by norm_num⟩)⟩

end RT
